import Mathlib

/-!
# Verification of the Actinide interpreter core

A shallow embedding, in Lean, of the Actinide Lisp interpreter
(`actinide/types.py`, `environment.py`, `evaluator.py`, `expander.py`,
`tokenizer.py`, `reader.py`, `ports.py`, `stdlib.py`), together with
theorems settling the specification claims about it.

Modelling conventions:
* Python strings are modelled as `String` or `List Char` (character lists
  for the tokenizer/reader/printer, which work character by character).
* Python exceptions are modelled by the `PyError` type and `Except`;
  a raised exception is an `Except.error`.
* Interned symbols compare equal exactly when their text is equal, so a
  symbol is modelled by its text and the symbol table needs no state.
* Host `Decimal` values are modelled by `Dec` (finite decimals: sign,
  coefficient, exponent), mirroring the decimal arithmetic specification
  the host library implements.
* Mutable environments are modelled by explicit state passing: an update
  returns the new environment.
-/

namespace Actinide

/-- The error kinds the interpreter and its host can raise.  `EvalError`,
`BindingError`, `ProcedureError`, `ExpansionError`, `SyntaxError` and
`TokenError` are the repository's own exception classes; the rest are host
(Python) exception classes. -/
inductive PyError where
  | typeError
  | valueError
  | attributeError
  | runtimeError
  | zeroDivisionError
  | invalidOperation
  | evalError
  | bindingError
  | procedureError
  | expansionError
  | syntaxError
  | tokenError
  | overflowError
  | decimalOverflow
  deriving DecidableEq, Repr

/-! ## Decimal digits -/

/-- The character for a single decimal digit. -/
def digitChar (n : Nat) : Char := Char.ofNat (48 + n)

/-- Little-endian base-10 digits of `n`, with explicit fuel so that the
definition is structural (and kernel-reducible).  `natDigitsAux n n`
computes the digits of `n`. -/
def natDigitsAux : Nat → Nat → List Nat
  | 0, _ => []
  | _ + 1, 0 => []
  | fuel + 1, n + 1 => ((n + 1) % 10) :: natDigitsAux fuel ((n + 1) / 10)

/-- Little-endian base-10 digits of `n` (empty for 0). -/
def natDigits (n : Nat) : List Nat := natDigitsAux n n

/-- The decimal-digit string of a natural number, most significant digit
first, as the host `str` produces it (`"0"` for zero). -/
def digitsStr (n : Nat) : List Char :=
  if n = 0 then ['0'] else (natDigits n).reverse.map digitChar

/-- Is `c` an ASCII decimal digit? -/
def isDigitChar (c : Char) : Bool := '0' ≤ c && c ≤ '9'

/-- Numeric value of a digit character. -/
def charDigit (c : Char) : Nat := c.toNat - 48

/-- Value of a most-significant-first digit string. -/
def digitsVal (ds : List Char) : Nat :=
  ds.foldl (fun acc c => 10 * acc + charDigit c) 0

/-- Host `int(text)` on an atom: an optional sign followed by one or more
ASCII digits.  (The host also accepts surrounding whitespace, underscore
grouping and non-ASCII digits; no such text is produced by the printer, so
those extensions are not modelled.) -/
def parseNat (s : List Char) : Option Nat :=
  if s ≠ [] ∧ s.all isDigitChar then some (digitsVal s) else none

/-- Host `int(text)` including the optional sign. -/
def parseInt (s : List Char) : Option Int :=
  match s with
  | [] => none
  | c :: rest =>
    if c = '-' then (parseNat rest).map (fun n => -(n : Int))
    else if c = '+' then (parseNat rest).map (fun n => (n : Int))
    else (parseNat (c :: rest)).map (fun n => (n : Int))

/-! ## Decimals

A finite host `Decimal` is a sign, a coefficient (a natural number, read
as its decimal digit string) and an exponent; the value denoted is
`±coeff · 10^exp`.  The host normalises away leading zeros of the
coefficient when parsing, which the `Nat` representation does by
construction.  The special values (NaN, infinities) are not modelled:
no claim in this development depends on them. -/
structure Dec where
  sign : Bool
  coeff : Nat
  exp : Int
  deriving DecidableEq, Repr

/-- The rational number a `Dec` denotes. -/
def Dec.toRat (d : Dec) : ℚ :=
  (if d.sign then -(d.coeff : ℚ) else (d.coeff : ℚ)) * 10 ^ d.exp

/-- The adjusted exponent of the decimal specification. -/
def decAdjusted (d : Dec) : Int := d.exp + (digitsStr d.coeff).length - 1

/-- The unsigned part of `to-sci-string`. -/
def decToSciBody (d : Dec) : List Char :=
  if d.exp ≤ 0 ∧ -6 ≤ decAdjusted d then
    if d.exp = 0 then digitsStr d.coeff
    else if 0 ≤ decAdjusted d then
      (digitsStr d.coeff).take ((decAdjusted d).toNat + 1) ++
        '.' :: (digitsStr d.coeff).drop ((decAdjusted d).toNat + 1)
    else
      '0' :: '.' :: List.replicate (-(decAdjusted d) - 1).toNat '0' ++
        digitsStr d.coeff
  else
    (match digitsStr d.coeff with
     | [] => []
     | d0 :: rest =>
       d0 :: (if rest = [] then [] else '.' :: rest) ++
         'E' :: (if decAdjusted d < 0 then '-' else '+') ::
           digitsStr (decAdjusted d).natAbs)

/-- `to-sci-string` of the decimal arithmetic specification, which is what
the host `str(Decimal)` produces. -/
def decToSci (d : Dec) : List Char :=
  if d.sign then '-' :: decToSciBody d else decToSciBody d

/-- Split a character list at the first occurrence of `'E'` or `'e'`. -/
def splitExpMark : List Char → List Char × Option (List Char)
  | [] => ([], none)
  | c :: rest =>
    if c = 'E' ∨ c = 'e' then ([], some rest)
    else
      let (m, e) := splitExpMark rest
      (c :: m, e)

/-- Split a character list at the first `'.'`; fails if there are two. -/
def splitPoint : List Char → Option (List Char × List Char)
  | [] => some ([], [])
  | c :: rest =>
    if c = '.' then
      if rest.contains '.' then none else some ([], rest)
    else
      (splitPoint rest).map (fun (i, f) => (c :: i, f))

/-- The exponent part of a decimal literal: optional sign and digits. -/
def parseDecExp (e : List Char) : Option Int :=
  match e with
  | [] => none
  | c :: ed =>
    if c = '-' then (parseNat ed).map (fun n : Nat => -(n : Int))
    else if c = '+' then (parseNat ed).map (fun n : Nat => (n : Int))
    else (parseNat (c :: ed)).map (fun n : Nat => (n : Int))

/-- A decimal literal after the optional leading sign. -/
def parseDecAfterSign (sign : Bool) (rest : List Char) : Option Dec :=
  let (mantissa, expPart) := splitExpMark rest
  match splitPoint mantissa with
  | none => none
  | some (intPart, fracPart) =>
    if (intPart ++ fracPart) = [] then none
    else if ¬ (intPart ++ fracPart).all isDigitChar then none
    else
      let expVal : Option Int :=
        match expPart with
        | none => some 0
        | some e => parseDecExp e
      match expVal with
      | none => none
      | some e => some ⟨sign, digitsVal (intPart ++ fracPart), e - fracPart.length⟩

/-- Host `Decimal(text)` on a finite numeric literal: optional sign,
digits with at most one point, optional exponent marker with optional sign
and digits.  (The special literals `NaN`/`Infinity` are not modelled.) -/
def parseDec (s : List Char) : Option Dec :=
  match s with
  | [] => parseDecAfterSign false []
  | c :: rest2 =>
    if c = '-' then parseDecAfterSign true rest2
    else if c = '+' then parseDecAfterSign false rest2
    else parseDecAfterSign false (c :: rest2)

/-! ## The value model (types.py), environments (environment.py) and
continuations (evaluator.py)

Continuations in the source are closures; each continuation factory of
`evaluator.py` becomes a constructor of `Cont` holding exactly the data the
corresponding closure captures, and `step` (below) gives each constructor
the behaviour of the closure's body. -/

mutual

/-- Runtime values.  `pfloat` is a host float (produced only as an
intermediate of true division; its payload is never inspected by any claim
and is not modelled).  `builtin` is a host-provided primitive, identified
by its registry name. -/
inductive Value where
  | nil
  | boolean (b : Bool)
  | integer (n : Int)
  | decimal (d : Dec)
  | pfloat
  | string (s : String)
  | symbol (s : String)
  | cons (head tail : Value)
  | vector (elems : List Value)
  | builtin (name : String)
  | procedure (p : Procedure)

/-- An environment: a table of bindings plus an optional parent. -/
inductive Env where
  | mk (table : List (String × Value)) (parent : Option Env)

/-- A compiled procedure: body, parsed formals (arbitrary values — the
source does not check that formals are symbols), the tail formal (the
non-cons terminator of the formals spec: nil when absent), the captured
environments, and the precompiled body continuation. -/
inductive Procedure where
  | mk (body : Value) (formals : List Value) (tail_formal : Value)
       (environment : Env) (macros : Env) (continuation : Cont)

/-- Continuations, one constructor per closure shape in `evaluator.py`:
`literal`, `symbol`, `lambda_` (the run-time part, which builds the
`Procedure`), `bind`, `macro_bind`, `branch`, `append`, `begin`,
`invoke`, the `guard` closure of `tail_graft`, the wrapper returned by
`define`, and the two shapes returned by `apply`. -/
inductive Cont where
  | literal (value : Value) (k : Option Cont)
  | symbol (s : String) (k : Option Cont)
  | lambda_ (formals : Value) (body : Value) (k : Option Cont)
  | bind (s : String) (k : Option Cont)
  | macro_bind (s : String) (k : Option Cont)
  | branch (on_true on_false : Cont)
  | append (args : List Value) (k : Option Cont)
  | begin (k : Option Cont)
  | invoke (k : Option Cont)
  | guard (k : Cont) (environment : Env) (macros : Env) (guarded : Cont)
  | defineWrap (eval_cont : Cont)
  | applyNil (k : Option Cont)
  | applyCons (head : Value) (tail_cont : Cont)

end

/-! ### Value predicates and list helpers (types.py) -/

def nil_p : Value → Bool
  | .nil => true
  | _ => false

def boolean_p : Value → Bool
  | .boolean _ => true
  | _ => false

/-- `isinstance(value, int)`: host booleans are an `int` subclass, so they
satisfy this predicate too. -/
def integer_p : Value → Bool
  | .integer _ => true
  | .boolean _ => true
  | _ => false

def decimal_p : Value → Bool
  | .decimal _ => true
  | _ => false

def string_p : Value → Bool
  | .string _ => true
  | _ => false

def symbol_p : Value → Bool
  | .symbol _ => true
  | _ => false

def cons_p : Value → Bool
  | .cons _ _ => true
  | _ => false

def list_p : Value → Bool
  | .nil => true
  | .cons _ t => list_p t
  | _ => false

/-- `callable(value)`. -/
def procedure_p : Value → Bool
  | .procedure _ => true
  | .builtin _ => true
  | _ => false

def vector_p : Value → Bool
  | .vector _ => true
  | _ => false

/-- `cons.head`: attribute access, an `AttributeError` on anything that is
not a pair. -/
def head : Value → Except PyError Value
  | .cons h _ => .ok h
  | _ => .error .attributeError

/-- `cons.tail`. -/
def tail : Value → Except PyError Value
  | .cons _ t => .ok t
  | _ => .error .attributeError

def uncons (v : Value) : Except PyError (Value × Value) := do
  pure (← head v, ← tail v)

/-- The `list` constructor. -/
def list : List Value → Value
  | [] => .nil
  | v :: rest => .cons v (list rest)

/-- `flatten`: the spine of a proper list; walking into a non-nil,
non-cons tail is an `AttributeError` (`head` of a non-pair). -/
def flatten : Value → Except PyError (List Value)
  | .nil => .ok []
  | .cons h t => (flatten t).map (h :: ·)
  | _ => .error .attributeError

/-- `append` at the binary arity the source uses for formals lists:
`append(xs, y)` with `xs` a proper list appends `y` as the final tail. -/
def append2 : Value → Value → Except PyError Value
  | .nil, ys => .ok ys
  | .cons h t, ys => (append2 t ys).map (.cons h)
  | _, _ => .error .attributeError

/-- Host truthiness, `bool(value)`: `None`, `False`, numeric zero, empty
strings and empty vectors are falsy; everything else is truthy.  (A host
float is never observed by `bool` in this development.) -/
def truthy : Value → Bool
  | .nil => false
  | .boolean b => b
  | .integer n => n != 0
  | .decimal d => d.coeff != 0
  | .pfloat => true
  | .string s => s != ""
  | .symbol _ => true
  | .cons _ _ => true
  | .vector l => !l.isEmpty
  | .builtin _ => true
  | .procedure _ => true

/-- The numeric value of a host number for `==` purposes (bool is an int
subclass; ints and Decimals compare numerically). -/
def numVal : Value → Option ℚ
  | .boolean b => some (if b then 1 else 0)
  | .integer n => some n
  | .decimal d => some d.toRat
  | _ => none

mutual

/-- Host `==` on values: numeric kinds compare numerically, pairs and
vectors elementwise, strings and symbols by text (interned symbols are
equal exactly when their text is), `None == None`.  Procedures, builtins
and floats compare by object identity, which a structural model cannot
express; they are modelled as never equal and are excluded from every
claim that uses this relation. -/
def pyEq : Value → Value → Bool
  | .nil, .nil => true
  | .string s1, .string s2 => s1 == s2
  | .symbol s1, .symbol s2 => s1 == s2
  | .cons h1 t1, .cons h2 t2 => pyEq h1 h2 && pyEq t1 t2
  | .vector l1, .vector l2 => pyEqList l1 l2
  | a, b =>
    match numVal a, numVal b with
    | some x, some y => decide (x = y)
    | _, _ => false

def pyEqList : List Value → List Value → Bool
  | [], [] => true
  | a :: xs, b :: ys => pyEq a b && pyEqList xs ys
  | _, _ => false

end

/-! ### Environments (environment.py) -/

def Env.table : Env → List (String × Value)
  | .mk t _ => t

def Env.parent : Env → Option Env
  | .mk _ p => p

/-- `find`: search this node, then the ancestors; missing is a
`BindingError`. -/
def Env.find : Env → String → Except PyError Value
  | .mk t p, s =>
    match t.lookup s, p with
    | some v, _ => .ok v
    | none, some e => e.find s
    | none, none => .error .bindingError

/-- `define`: write into the current node (a functional update; the new
binding shadows any previous one). -/
def Env.define : Env → String → Value → Env
  | .mk t p, s, v => .mk ((s, v) :: t) p

/-- Host `name in env`: dict membership looks only at the current node. -/
def Env.containsKey (e : Env) (s : String) : Bool :=
  (e.table.lookup s).isSome

/-- Host `env[name]`: dict item access on the current node only. -/
def Env.getItem (e : Env) (s : String) : Except PyError Value :=
  match e.table.lookup s with
  | some v => .ok v
  | none => .error .bindingError

/-- `Environment(bindings, parent)`: sequential `update` from the pairs. -/
def Env.ofBindings (bs : List (String × Value)) (p : Option Env) : Env :=
  bs.foldl (fun e sv => e.define sv.1 sv.2) (.mk [] p)

def emptyEnv : Env := .mk [] none

/-! ### The printer (types.py `display` and friends)

Python strings are modelled as character lists here.  The source's
`display_string` applies `str.replace` twice (`\` → `\\`, then `"` →
`\"`); since the first pass introduces no `"` and the second introduces
each `\` directly before a `"`, the composition equals the single
character-by-character pass below. -/

def escapeChars : List Char → List Char
  | [] => []
  | c :: rest =>
    if c = '\\' then '\\' :: '\\' :: escapeChars rest
    else if c = '"' then '\\' :: '"' :: escapeChars rest
    else c :: escapeChars rest

def display_string (s : String) : List Char :=
  '"' :: escapeChars s.data ++ ['"']

/-- `str` of a host int. -/
def display_integer (n : Int) : List Char :=
  if n < 0 then '-' :: digitsStr n.natAbs else digitsStr n.toNat

def display_nil : List Char := ['(', ')']

def display_boolean (b : Bool) : List Char :=
  if b then ['#', 't'] else ['#', 'f']

/-- Is this a `(quote x)` / `(quasiquote x)` / `(unquote x)` /
`(unquote-splicing x)` shaped pair? (`quote_p` from types.py: a cons whose
head is one of the four quote symbols.) -/
def quote_p : Value → Bool
  | .cons (.symbol s) _ =>
    s = "quote" ∨ s = "quasiquote" ∨ s = "unquote" ∨ s = "unquote-splicing"
  | _ => false

mutual

/-- `display` from types.py.  Dispatch order follows the source; the
constructors of `Value` are disjoint, so only the `quote_p` guard on pairs
is order-sensitive.  The `repr` fallback (reached only by host floats
here) produces an unreadable token whose exact text is not modelled. -/
def display (v : Value) : Except PyError (List Char) :=
  if quote_p v then display_quote v
  else
    match v with
    | .cons h t => display_cons (.cons h t)
    | .symbol s => .ok s.data
    | .string s => .ok (display_string s)
    | .nil => .ok display_nil
    | .boolean b => .ok (display_boolean b)
    | .integer n => .ok (display_integer n)
    | .decimal d => .ok (decToSci d)
    | .procedure p => display_procedure p
    | .builtin name => .ok ("<builtin: ".data ++ name.data ++ ['>'])
    | .vector l => display_vector l
    | .pfloat => .ok "<float repr>".data
termination_by (sizeOf v, 4)

/-- `display_quote`.  The source's `quote, form = flatten(value)` raises
`AttributeError` on a dotted spine and `ValueError` unless the list has
exactly two elements; the two-element case is rendered as a structural
match so the recursion into `form` is visible to the termination checker. -/
def display_quote (v : Value) : Except PyError (List Char) :=
  match v with
  | .cons q (.cons form .nil) =>
    (match q with
     | .symbol qs =>
       if qs = "quote" then (display form).map ('\'' :: ·)
       else if qs = "quasiquote" then (display form).map ('`' :: ·)
       else if qs = "unquote" then (display form).map (',' :: ·)
       else if qs = "unquote-splicing" then (display form).map (',' :: '@' :: ·)
       else display_cons (.cons (.symbol qs) (.cons form .nil))
     | q2 => display_cons (.cons q2 (.cons form .nil)))
  | _ =>
    match flatten v with
    | .ok _ => .error .valueError
    | .error e => .error e
termination_by (sizeOf v, 3)

/-- `display_cons`: the parts of the spine, space-separated, in parens. -/
def display_cons (v : Value) : Except PyError (List Char) :=
  (displayParts v).map (fun parts => '(' :: List.intercalate [' '] parts ++ [')'])
termination_by (sizeOf v, 2)

/-- The source's `while cons_p` loop of `display_cons`, with the dotted
tail handled as in the source (`.` and the tail's display appended).  Only
ever applied to pairs; the catch-all is unreachable. -/
def displayParts : Value → Except PyError (List (List Char))
  | .cons h t => do
    let s ← display h
    match t with
    | .cons h2 t2 => do
      let rest ← displayParts (.cons h2 t2)
      pure (s :: rest)
    | .nil => pure [s]
    | t2 => do
      let st ← display t2
      pure [s, ['.'], st]
  | _ => pure []
termination_by v => (sizeOf v, 1)

/-- `display_vector`. -/
def display_vector (l : List Value) : Except PyError (List Char) :=
  (displayVecParts l).map
    (fun parts => "<vector: [".data ++ List.intercalate [' '] parts ++ [']', '>'])
termination_by (sizeOf l, 1)

def displayVecParts : List Value → Except PyError (List (List Char))
  | [] => pure []
  | v :: rest => do
    let s ← display v
    let more ← displayVecParts rest
    pure (s :: more)
termination_by l => (sizeOf l, 0)

/-- `display_procedure` for user procedures: formals rendered as the
source's `display(append(list(*formals), tail_formal))`, done structurally
over the stored formals and tail formal. -/
def display_procedure (p : Procedure) : Except PyError (List Char) :=
  match p with
  | .mk body formals tail_formal _ _ _ => do
    let fstr ←
      match formals with
      | [] => display tail_formal
      | f :: rest =>
        (formalsParts (f :: rest) tail_formal).map
          (fun parts => '(' :: List.intercalate [' '] parts ++ [')'])
    let bstr ← display body
    pure ("<procedure: (lambda ".data ++ fstr ++ ' ' :: bstr ++ [')', '>'])
termination_by (sizeOf p, 0)

/-- The display parts of a nonempty formals list followed by its tail
formal (which continues the spine exactly as in `display_cons`). -/
def formalsParts : List Value → Value → Except PyError (List (List Char))
  | [], tf =>
    match tf with
    | .nil => pure []
    | .cons h2 t2 => displayParts (.cons h2 t2)
    | tf2 => do
      let st ← display tf2
      pure [['.'], st]
  | f :: rest, tf => do
    let s ← display f
    let ps ← formalsParts rest tf
    pure (s :: ps)
termination_by fs tf => (sizeOf fs + sizeOf tf, 5)

end

/-! ### Procedures (types.py) -/

def Procedure.body : Procedure → Value
  | .mk b _ _ _ _ _ => b

def Procedure.formals : Procedure → List Value
  | .mk _ f _ _ _ _ => f

def Procedure.tail_formal : Procedure → Value
  | .mk _ _ tf _ _ _ => tf

def Procedure.environment : Procedure → Env
  | .mk _ _ _ e _ _ => e

def Procedure.macros : Procedure → Env
  | .mk _ _ _ _ m _ => m

def Procedure.continuation : Procedure → Cont
  | .mk _ _ _ _ _ c => c

/-- `parse_formals`: pop named formals off the cons spine; the non-cons
terminator (nil or a symbol, or in unchecked source any value) is the tail
formal.  The source does not check that the names are symbols. -/
def parse_formals : Value → List Value × Value
  | .cons f rest =>
    let (names, tf) := parse_formals rest
    (f :: names, tf)
  | v => ([], v)

/-- Formal/argument pairs that can actually be written into an
environment table keyed by symbol text.  The source binds arbitrary
(hashable) values as dict keys; a binding under a non-symbol key can never
be read back by `Env.find`, which only ever looks up symbols, so dropping
such pairs preserves every observable behaviour. -/
def bindablePairs : List (Value × Value) → List (String × Value)
  | [] => []
  | (.symbol s, a) :: rest => (s, a) :: bindablePairs rest
  | _ :: rest => bindablePairs rest

/-- `Procedure.invocation_environment`.  On arity mismatch the source
interpolates `display` of the formals and of the arguments into the
`ProcedureError` message (inside an f-string, evaluated before the
exception is constructed), so a failing `display` raises *its* error
instead of `ProcedureError`. -/
def Procedure.invocation_environment (p : Procedure) (args : List Value) :
    Except PyError Env :=
  if args.length < p.formals.length ∨
      (args.length > p.formals.length ∧ ¬ truthy p.tail_formal) then do
    let args_syntax ← append2 (list p.formals) p.tail_formal
    let _ ← display args_syntax
    let _ ← display (list args)
    .error .procedureError
  else
    let named := bindablePairs (p.formals.zip args)
    let tailArg : List (String × Value) :=
      if truthy p.tail_formal then
        match p.tail_formal with
        | .symbol s => [(s, list (args.drop p.formals.length))]
        | _ => []
      else []
    .ok (Env.ofBindings (named ++ tailArg) (some p.environment))

/-! ### Compilation (evaluator.py): form → continuation

`eval` and the special-form helpers run at compile time and may raise; the
continuations they build are stepped by `step` below.  The source
destructures forms with `flatten`-unpacking, which raises `AttributeError`
on a dotted spine and `ValueError` on a wrong element count; the good
shapes are rendered as structural matches so the recursion is visible,
and the failing shapes reproduce the unpacking errors via `flatten`. -/

/-- Which environment a `define` form writes to. -/
inductive BindTarget where
  | toValue
  | toMacros
  deriving DecidableEq

def mkBindCont : BindTarget → String → Option Cont → Cont
  | .toValue, s, k => .bind s k
  | .toMacros, s, k => .macro_bind s k

mutual

/-- `eval`: translate a form into a continuation chaining to `k`.
The interned-symbol comparisons against `symbols['if']` etc. become
matches on symbol text. -/
def eval (value : Value) (k : Option Cont) : Except PyError Cont :=
  match value with
  | .symbol s => .ok (.symbol s k)
  | .nil => .ok (.literal .nil k)
  | .cons h t =>
    if ¬ list_p (.cons h t) then .error .evalError
    else
      match h with
      | .symbol "if" => if_ t k
      | .symbol "define" => define t k .toValue
      | .symbol "define-macro" => define t k .toMacros
      | .symbol "lambda" => lambda_ t k
      | .symbol "quote" => quote t k
      | .symbol "begin" => apply t (.begin k)
      | _ => apply (.cons h t) (.invoke k)
  | v => .ok (.literal v k)
termination_by (sizeOf value, 1)

/-- `define`: evaluate the expression into a `bind` continuation; a
non-symbol name is a `RuntimeError` whose message displays the name. -/
def define (value : Value) (k : Option Cont) (bind : BindTarget) :
    Except PyError Cont :=
  match value with
  | .cons symb (.cons expr .nil) =>
    (match symb with
     | .symbol s => (eval expr (some (mkBindCont bind s k))).map .defineWrap
     | _ => do
       let _ ← display symb
       .error .runtimeError)
  | v =>
    match flatten v with
    | .ok _ => .error .valueError
    | .error e => .error e
termination_by (sizeOf value, 0)

/-- `if_`: compile both branches onto a `branch` continuation fed by the
condition. -/
def if_ (value : Value) (k : Option Cont) : Except PyError Cont :=
  match value with
  | .cons cond (.cons on_true (.cons on_false .nil)) => do
    let tc ← eval on_true k
    let fc ← eval on_false k
    eval cond (some (.branch tc fc))
  | v =>
    match flatten v with
    | .ok _ => .error .valueError
    | .error e => .error e
termination_by (sizeOf value, 0)

/-- `quote`: unquote the single-element tail into a literal. -/
def quote (quoted : Value) (k : Option Cont) : Except PyError Cont :=
  match quoted with
  | .cons value .nil => .ok (.literal value k)
  | v =>
    match flatten v with
    | .ok _ => .error .valueError
    | .error e => .error e

/-- `lambda_` (compile-time part): destructure `(formals body)`; the
`Procedure` itself is created when the continuation runs. -/
def lambda_ (defn : Value) (k : Option Cont) : Except PyError Cont :=
  match defn with
  | .cons formals (.cons body .nil) => .ok (.lambda_ formals body k)
  | v =>
    match flatten v with
    | .ok _ => .error .valueError
    | .error e => .error e

/-- `apply`: evaluate list elements left to right, splicing results onto
an `append` accumulator, finally chaining everything to `k`.  Only the
spine is taken apart at compile time; each element is compiled by `eval`
when its continuation runs. -/
def apply : Value → Cont → Except PyError Cont
  | .nil, k => .ok (.applyNil (some k))
  | .cons h t, k => (apply t k).map (.applyCons h)
  | _, _ => .error .attributeError
termination_by v _ => (sizeOf v, 0)

end

/-- `tail_graft`: graft return-to-caller behaviour onto a callee
continuation.  A `⊥` target is a proper tail call and the callee
continuation is returned unchanged; otherwise the callee is wrapped in a
`guard`. -/
def tail_graft (k : Option Cont) (environment macros : Env) (guarded : Cont) :
    Cont :=
  match k with
  | none => guarded
  | some k' => .guard k' environment macros guarded

/-- The builtin registry, modelled for a handful of primitives; no claim
invokes any other primitive through the evaluator. -/
def applyBuiltin (name : String) (args : List Value) :
    Except PyError (List Value) :=
  match name, args with
  | "cons", [h, t] => .ok [.cons h t]
  | "head", [v] => (head v).map ([·])
  | "tail", [v] => (tail v).map ([·])
  | "nil?", [v] => .ok [.boolean (nil_p v)]
  | "list", vs => .ok [list vs]
  | _, _ => .error .typeError

/-- `args[-1:]`: the last value, if any. -/
def lastArgs (args : List Value) : List Value :=
  match args.reverse with
  | [] => []
  | a :: _ => [a]

/-- One step of a continuation: the body of the closure the constructor
stands for.  Calling a closure with an argument count its parameter list
cannot accept is a host `TypeError`.  The result is the tuple the closure
returns: next continuation (`none` is `⊥`), environments, and values. -/
def step (k : Cont) (env macros : Env) (args : List Value) :
    Except PyError (Option Cont × Env × Env × List Value) :=
  match k with
  | .literal v k =>
    match args with
    | [] => .ok (k, env, macros, [v])
    | _ => .error .typeError
  | .symbol s k =>
    match args with
    | [] => (env.find s).map (fun v => (k, env, macros, [v]))
    | _ => .error .typeError
  | .lambda_ formals body k =>
    match args with
    | [] => do
      let c ← eval body none
      let (fs, tf) := parse_formals formals
      .ok (k, env, macros, [.procedure (.mk body fs tf env macros c)])
    | _ => .error .typeError
  | .bind s k =>
    match args with
    | [v] => .ok (k, env.define s v, macros, [])
    | _ => .error .typeError
  | .macro_bind s k =>
    match args with
    | [v] => .ok (k, env, macros.define s v, [])
    | _ => .error .typeError
  | .branch on_true on_false =>
    match args with
    | [v] => .ok (some (if truthy v then on_true else on_false), env, macros, [])
    | _ => .error .typeError
  | .append pre k => .ok (k, env, macros, pre ++ args)
  | .begin k => .ok (k, env, macros, lastArgs args)
  | .invoke k =>
    match args with
    | [] => .error .typeError
    | fn :: rest =>
      match fn with
      | .procedure p => do
        let call_env ← p.invocation_environment rest
        .ok (some (tail_graft k env macros p.continuation),
             call_env, .mk [] (some macros), [])
      | .builtin name =>
        (applyBuiltin name rest).map (fun res => (k, env, macros, res))
      | _ => .error .typeError
  | .guard k cenv _cmac guarded =>
    -- The guard closure's `macros` parameter shadows the captured caller
    -- macros `cmac`, which are therefore dead after the `⊥` check: the
    -- macro environment flowing on is the one the guarded step returned.
    match step guarded env macros args with
    | .error e => .error e
    | .ok (none, _, m2, vs) => .ok (some k, cenv, m2, vs)
    | .ok (some nxt, e2, m2, vs) => .ok (some (.guard k cenv m2 nxt), e2, m2, vs)
  | .defineWrap c =>
    match args with
    | [] => .ok (some c, env, macros, [])
    | _ => .error .typeError
  | .applyNil k => .ok (k, env, macros, args)
  | .applyCons h tc =>
    (eval h (some (.append args (some tc)))).map
      (fun c => (some c, env, macros, []))

/-- The trampoline `run`, with fuel (`none` = fuel exhausted): iterate
`step` until the continuation is `⊥`, then return the final state.  The
environments are part of the result because the model passes state
explicitly. -/
def run : Nat → Option Cont → Env → Env → List Value → Option (Except PyError (Env × Env × List Value))
  | _, none, e, m, a => some (.ok (e, m, a))
  | 0, some _, _, _, _ => none
  | fuel + 1, some k, e, m, a =>
    match step k e m a with
    | .error err => some (.error err)
    | .ok (k', e', m', a') => run fuel k' e' m' a'

/-- Step a continuation state exactly `n` times (stopping early at `⊥` or
on an error). -/
def iterate : Nat → Except PyError (Option Cont × Env × Env × List Value) →
    Except PyError (Option Cont × Env × Env × List Value)
  | 0, s => s
  | fuel + 1, s =>
    match s with
    | .ok (some k, e, m, a) => iterate fuel (step k e m a)
    | s => s

/-- `Procedure.__call__`: build the invocation environment and a fresh
child of the procedure's captured macro environment, then run the
precompiled continuation to quiescence. -/
def Procedure.call (fuel : Nat) (p : Procedure) (args : List Value) :
    Option (Except PyError (List Value)) :=
  match p.invocation_environment args with
  | .error e => some (.error e)
  | .ok call_env =>
    match run fuel (some p.continuation) call_env (.mk [] (some p.macros)) [] with
    | none => none
    | some (.error e) => some (.error e)
    | some (.ok (_, _, vs)) => some (.ok vs)

/-- Calling an arbitrary value (the expander applies macro transformers
this way): procedures run, builtins dispatch to the registry, anything
else is a host `TypeError`. -/
def callValue (fuel : Nat) (v : Value) (args : List Value) :
    Option (Except PyError (List Value)) :=
  match v with
  | .procedure p => p.call fuel args
  | .builtin name => some (applyBuiltin name args)
  | _ => some (.error .typeError)

/-! ### The expander (expander.py)

`ExpansionError` is defined by the source but never raised: the
destructuring helpers fail with `AttributeError` (from `uncons` / `head`
on a non-pair) instead.  Macro expansion calls back into the evaluator, so
`expand` carries fuel. -/

/-- `expand_if`: `(if c t)` → `(if c t ())`; extra elements past the
fourth are silently dropped. -/
def expand_if (form : Value) : Except PyError Value := do
  let (h, f1) ← uncons form
  let (cond, f2) ← uncons f1
  let (t, f3) ← uncons f2
  if nil_p f3 then .ok (list [h, cond, t, .nil])
  else do
    let (f, _) ← uncons f3
    .ok (list [h, cond, t, f])

def expand_lambda_define (h symb body : Value) : Except PyError Value := do
  let (name, formals) ← uncons symb
  .ok (list [h, name, .cons (.symbol "lambda") (.cons formals body)])

/-- `expand_define` (also used for `define-macro`). -/
def expand_define (form : Value) : Except PyError Value := do
  let (h, f1) ← uncons form
  let (symb, f2) ← uncons f1
  if cons_p symb then expand_lambda_define h symb f2
  else do
    let (val, _) ← uncons f2
    .ok (list [h, symb, val])

/-- `expand_lambda`: wrap two or more body forms in `(begin …)`; one body
form, or none, is left as is (the source's docstring promises
`(lambda F)` → `(lambda F (begin))`, but the `cons_p(form)` guard is false
for an empty body, so no `begin` is inserted). -/
def expand_lambda (form : Value) : Except PyError Value := do
  let (h, f1) ← uncons form
  let (formals, f2) ← uncons f1
  let f3 :=
    match f2 with
    | .cons x t2 =>
      if ¬ nil_p t2 then list [.cons (.symbol "begin") (.cons x t2)]
      else .cons x t2
    | other => other
  .ok (.cons h (.cons formals f3))

/-- `expand_quasiquoted`: recursive quasiquote rewriting. -/
def expand_quasiquoted : Value → Except PyError Value
  | .nil => .ok .nil
  | .cons first rest =>
    (match first with
     | .symbol "unquote" => (uncons rest).map (·.1)
     | .cons candidate body2 =>
       (match candidate with
        | .symbol "unquote-splicing" => do
          let (next, _) ← uncons body2
          let e ← expand_quasiquoted rest
          .ok (list [.symbol "append", next, e])
        | cand2 => do
          let fe ← expand_quasiquoted (.cons cand2 body2)
          let re ← expand_quasiquoted rest
          .ok (list [.symbol "cons", fe, re]))
     | f2 => do
       let fe ← expand_quasiquoted f2
       let re ← expand_quasiquoted rest
       .ok (list [.symbol "cons", fe, re]))
  | v => .ok (list [.symbol "quote", v])

def expand_quasiquote (form : Value) : Except PyError Value := do
  let (_, f1) ← uncons form
  let (body, _) ← uncons f1
  expand_quasiquoted body

mutual

/-- `expand`: desugar a form, apply macro transformers to a fixpoint, then
recurse into subforms.  `none` is exhausted fuel. -/
def expand : Nat → Value → Env → Option (Except PyError Value)
  | 0, _, _ => none
  | fuel + 1, form, macros =>
    match form with
    | .cons h t =>
      (match h with
       | .symbol s =>
         if s = "quote" then some (.ok (.cons h t))
         else
           let afterHead : Option (Except PyError Value) :=
             if s = "if" then some (expand_if (.cons h t))
             else if s = "define" then some (expand_define (.cons h t))
             else if s = "define-macro" then some (expand_define (.cons h t))
             else if s = "lambda" then some (expand_lambda (.cons h t))
             else if s = "quasiquote" then some (expand_quasiquote (.cons h t))
             else if macros.containsKey s then expand_macro fuel (.cons h t) macros
             else some (.ok (.cons h t))
           match afterHead with
           | none => none
           | some (.error e) => some (.error e)
           | some (.ok f2) => expand_subforms fuel f2 macros
       | _ => expand_subforms fuel (.cons h t) macros)
    | v => some (.ok v)

/-- `expand_subforms`. -/
def expand_subforms : Nat → Value → Env → Option (Except PyError Value)
  | 0, _, _ => none
  | fuel + 1, lst, macros =>
    match lst with
    | .nil => some (.ok .nil)
    | .cons h t =>
      (match expand fuel h macros with
       | none => none
       | some (.error e) => some (.error e)
       | some (.ok eh) =>
         match expand_subforms fuel t macros with
         | none => none
         | some (.error e) => some (.error e)
         | some (.ok et) => some (.ok (.cons eh et)))
    | v => some (.ok v)

/-- `expand_macro`: apply the transformer bound in the current macro
environment node to the unevaluated argument forms, take its single
result, and expand again. -/
def expand_macro : Nat → Value → Env → Option (Except PyError Value)
  | 0, _, _ => none
  | fuel + 1, form, macros =>
    match uncons form with
    | .error e => some (.error e)
    | .ok (mname, margs) =>
      match mname with
      | .symbol s =>
        (match macros.getItem s with
         | .error e => some (.error e)
         | .ok body =>
           match flatten margs with
           | .error e => some (.error e)
           | .ok argList =>
             match callValue fuel body argList with
             | none => none
             | some (.error e) => some (.error e)
             | some (.ok [expansion]) => expand fuel expansion macros
             | some (.ok _) => some (.error .valueError))
      | _ => some (.error .typeError)

end

/-! ### Ports (ports.py) -/

/-- A port: the remaining underlying input and the peek buffer. -/
structure Port where
  file : List Char
  peek_buffer : List Char
  deriving DecidableEq, Repr

/-- `peek(n)`: fill the buffer from the file if it is empty, then return
the whole buffer (whatever its length). -/
def Port.peek (p : Port) (n : Nat) : Port × List Char :=
  if p.peek_buffer.isEmpty then
    let buf := p.file.take n
    ({ file := p.file.drop n, peek_buffer := buf }, buf)
  else (p, p.peek_buffer)

/-- `read(n)`: serve from the peek buffer if it is nonempty, else from the
file. -/
def Port.read (p : Port) (n : Nat) : Port × List Char :=
  if ¬ p.peek_buffer.isEmpty then
    ({ p with peek_buffer := p.peek_buffer.drop n }, p.peek_buffer.take n)
  else
    ({ p with file := p.file.drop n }, p.file.take n)

/-- `read_fully()`: return the peek buffer plus all remaining input.  The
underlying file is consumed; the peek buffer is left as it was. -/
def Port.read_fully (p : Port) : Port × List Char :=
  ({ p with file := [] }, p.peek_buffer ++ p.file)

def string_to_input_port (s : String) : Port := ⟨s.data, []⟩

/-! ### Arithmetic (stdlib.py)

`__floordiv__` is the implementation of the `/` primitive: pick true or
floor division once, then reduce left to right.  The host semantics
modelled: `int // int` is floor division; `int / int` is a *float*;
mixed `int`/`Decimal` true division promotes to `Decimal`; `float` with
`Decimal` is a host `TypeError`; division by zero raises. -/

/-- An operand's value as a host int, when it is one (`bool` is an `int`
subclass). -/
def pyNumAsInt : Value → Option Int
  | .integer n => some n
  | .boolean b => some (if b then 1 else 0)
  | _ => none

def intToDec (n : Int) : Dec := ⟨decide (n < 0), n.natAbs, 0⟩

def decDigitCount (n : Nat) : Nat := (digitsStr n).length

/-- `Etiny` of the host's default decimal context:
`Emin - prec + 1 = -999999 - 28 + 1`. -/
def decEtiny : Int := -1000026

/-- `Etop` of the host's default decimal context:
`Emax - prec + 1 = 999999 - 28 + 1`. -/
def decEtop : Int := 999972

/-- `Decimal._fix` at the default context (`prec = 28`,
`Emin/Emax = ∓999999`, `clamp = 0`): a zero has its exponent clamped
into `[Etiny, Emax]`; a nonzero result whose adjusted exponent exceeds
`Emax` raises `decimal.Overflow` (trapped by default); otherwise the
coefficient is rounded half-to-even at the larger of 28 significant
digits and the `Etiny` position (a carry can push the result into
`Overflow`), and a result already within limits is returned unchanged
(the underflow-family signals are not trapped). -/
def decFix (sign : Bool) (coeff : Nat) (exp : Int) : Except PyError Dec :=
  if coeff = 0 then
    .ok ⟨sign, 0, min (max exp decEtiny) 999999⟩
  else
    let nd : Int := decDigitCount coeff
    let expMin0 : Int := nd + exp - 28
    if decEtop < expMin0 then .error .decimalOverflow
    else
      let expMin := max expMin0 decEtiny
      if exp < expMin then
        let digits : Int := nd + exp - expMin
        if digits < 0 then .ok ⟨sign, 0, expMin⟩
        else
          let dropped := (nd - digits).toNat
          let p := 10 ^ dropped
          let q := coeff / p
          let r := coeff % p
          let rounded := if 2 * r > p ∨ (2 * r = p ∧ q % 2 = 1) then q + 1 else q
          if 28 < decDigitCount rounded then
            (if decEtop < expMin + 1 then .error .decimalOverflow
             else .ok ⟨sign, rounded / 10, expMin + 1⟩)
          else .ok ⟨sign, rounded, expMin⟩
      else .ok ⟨sign, coeff, exp⟩

/-- The trailing-zero reduction of `__truediv__` toward the ideal
exponent (`while exp < ideal and coeff % 10 == 0`), with the loop bound
`ideal - exp` made explicit so the definition is structural. -/
def decReduceIdealAux : Nat → Nat → Int → Nat × Int
  | 0, coeff, exp => (coeff, exp)
  | fuel + 1, coeff, exp =>
    if coeff % 10 = 0 then decReduceIdealAux fuel (coeff / 10) (exp + 1)
    else (coeff, exp)

def decReduceIdeal (coeff : Nat) (exp ideal : Int) : Nat × Int :=
  decReduceIdealAux (ideal - exp).toNat coeff exp

/-- `Decimal.__truediv__` (the `_pydecimal` reference implementation):
`0/0` is `DivisionUndefined` (an `InvalidOperation`), `x/0` is
`DivisionByZero`; otherwise long division to 29 digits, with the
round-half-even adjustment and ideal-exponent reduction, then `_fix`
(which can raise the trapped `decimal.Overflow`). -/
def decDiv (x y : Dec) : Except PyError Dec :=
  if y.coeff = 0 then
    if x.coeff = 0 then .error .invalidOperation
    else .error .zeroDivisionError
  else if x.coeff = 0 then
    decFix (xor x.sign y.sign) 0 (x.exp - y.exp)
  else
    let sign := xor x.sign y.sign
    let shift : Int := (decDigitCount y.coeff : Int) - decDigitCount x.coeff + 28 + 1
    let exp := x.exp - y.exp - shift
    let (coeff, remainder) :=
      if 0 ≤ shift then
        ((x.coeff * 10 ^ shift.toNat) / y.coeff, (x.coeff * 10 ^ shift.toNat) % y.coeff)
      else
        (x.coeff / (y.coeff * 10 ^ (-shift).toNat), x.coeff % (y.coeff * 10 ^ (-shift).toNat))
    if remainder ≠ 0 then
      decFix sign (if coeff % 5 = 0 then coeff + 1 else coeff) exp
    else
      let ideal := x.exp - y.exp
      let (c3, e3) := decReduceIdeal coeff exp ideal
      decFix sign c3 e3

/-- Does the correctly rounded double of the quotient `n / m` exceed the
float range?  Host ints divide into a float; CPython raises
`OverflowError` exactly when `|n / m| ≥ 2^1024 - 2^970` (the half-even
rounding boundary above the largest finite double). -/
def floatDivOverflows (n m : Int) : Bool :=
  (2 ^ 1024 - 2 ^ 970) * m.natAbs ≤ n.natAbs

/-- Host `a / b` (true division) on the operand kinds `__floordiv__` can
produce: ints (and bools), Decimals, and the float accumulator.  An
`int / int` division overflowing the float range raises host
`OverflowError`; a `float / int` result never exceeds the float's own
magnitude, so that branch cannot overflow. -/
def pyTrueDiv (a b : Value) : Except PyError Value :=
  match a with
  | .decimal x =>
    (match b with
     | .decimal y => (decDiv x y).map .decimal
     | b =>
       match pyNumAsInt b with
       | some n => (decDiv x (intToDec n)).map .decimal
       | none => .error .typeError)
  | .pfloat =>
    (match b with
     | .decimal _ => .error .typeError
     | b =>
       match pyNumAsInt b with
       | some m => if m = 0 then .error .zeroDivisionError else .ok .pfloat
       | none => .error .typeError)
  | a =>
    match pyNumAsInt a with
    | none => .error .typeError
    | some n =>
      match b with
      | .decimal y => (decDiv (intToDec n) y).map .decimal
      | b =>
        match pyNumAsInt b with
        | some m =>
          if m = 0 then .error .zeroDivisionError
          else if floatDivOverflows n m then .error .overflowError
          else .ok .pfloat
        | none => .error .typeError

/-- Host `a // b`.  Decimal operands are unreachable from `__floordiv__`
(floor division is selected only when no argument is a Decimal), so only
int-like operands are modelled. -/
def pyFloorDiv (a b : Value) : Except PyError Value :=
  match pyNumAsInt a, pyNumAsInt b with
  | some n, some m =>
    if m = 0 then .error .zeroDivisionError else .ok (.integer (Int.fdiv n m))
  | _, _ => .error .typeError

/-- A value that can appear as a divisor without raising: a nonzero
int-like or a nonzero Decimal. -/
def divisorOk : Value → Bool
  | .integer n => n != 0
  | .boolean b => b
  | .decimal d => d.coeff != 0
  | _ => false

/-- `functools.reduce` with a seeded accumulator. -/
def reduceM (f : Value → Value → Except PyError Value) :
    Value → List Value → Except PyError Value
  | acc, [] => .ok acc
  | acc, b :: rest => (f acc b) >>= fun acc2 => reduceM f acc2 rest

/-- `__floordiv__` from stdlib.py, the `/` primitive: choose true division
when any argument is a Decimal, else integer floor division, and reduce
left to right.  An empty argument list is `reduce` on an empty sequence, a
host `TypeError`. -/
def __floordiv__ (vals : List Value) : Except PyError Value :=
  let div := if vals.any decimal_p then pyTrueDiv else pyFloorDiv
  match vals with
  | [] => .error .typeError
  | v :: rest => reduceM div v rest

/-! ### `list_to_vector` (types.py) -/

/-- `list_to_vector`: the body is `return flatten(list)` where `list` is
the module-level list constructor *function*, not the parameter `value`;
`flatten` then immediately does attribute access on that function object. -/
def list_to_vector (_value : Value) : Except PyError Value :=
  (flatten (Value.builtin "list")).map .vector

/-! ### The tokenizer (tokenizer.py)

The tokenizer only ever uses `peek(1)` and `read(1)`, so the port is
modelled by its remaining character stream (`Port.peek 1` is `head?`,
`Port.read 1` pops).  Each state function of the source machine becomes a
function here; the `read_token` trampoline becomes direct recursion. -/

/-- The comment state: consume characters up to and including a newline
(or the end of input), producing nothing. -/
def tokenize_comment : List Char → List Char
  | [] => []
  | c :: rest => if c = '\n' then rest else tokenize_comment rest

lemma tokenize_comment_length (s : List Char) :
    (tokenize_comment s).length ≤ s.length := by
  induction s with
  | nil => simp [tokenize_comment]
  | cons c rest ih =>
    simp only [tokenize_comment]
    split
    · simp
    · simp only [List.length_cons]
      omega

/-- The non-string-atom state family: accumulate characters until a
delimiter (`"();`, whitespace) or the end of input, which is not
consumed. -/
def tokenize_nonstring_atom : List Char → List Char × List Char
  | [] => ([], [])
  | c :: rest =>
    if c = '"' ∨ c = '(' ∨ c = ')' ∨ c = ';' ∨ c = ' ' ∨ c = '\t' ∨ c = '\n' then
      ([], c :: rest)
    else
      let (a, r) := tokenize_nonstring_atom rest
      (c :: a, r)

/-- The string states after the opening quote: accumulate characters
verbatim (escape sequences `\"` and `\\` included); a bare `"` closes the
literal; end of input or an invalid escape is a `TokenError`. -/
def tokenize_string_body : List Char → Except PyError (List Char × List Char)
  | [] => .error .tokenError
  | c :: rest =>
    if c = '\\' then
      (match rest with
       | [] => .error .tokenError
       | c2 :: rest2 =>
         if c2 = '"' ∨ c2 = '\\' then
           (tokenize_string_body rest2).map (fun (a, r) => ('\\' :: c2 :: a, r))
         else .error .tokenError)
    else if c = '"' then .ok ([], rest)
    else (tokenize_string_body rest).map (fun (a, r) => (c :: a, r))

/-- `read_token`: one token (`none` at end of input) and the rest of the
stream.  Dispatch follows `tokenize_any`. -/
def read_token : List Char → Except PyError (Option String × List Char)
  | [] => .ok (none, [])
  | c :: rest =>
    if c = ';' then read_token (tokenize_comment rest)
    else if c = '(' ∨ c = ')' then .ok (some ⟨[c]⟩, rest)
    else if c = '\'' ∨ c = '`' then .ok (some ⟨[c]⟩, rest)
    else if c = ',' then
      match rest with
      | '@' :: rest2 => .ok (some ",@", rest2)
      | _ => .ok (some ",", rest)
    else if c = ' ' ∨ c = '\t' ∨ c = '\n' then read_token rest
    else if c = '"' then
      match tokenize_string_body rest with
      | .error e => .error e
      | .ok (content, r) => .ok (some ⟨'"' :: (content ++ ['"'])⟩, r)
    else
      let (a, r) := tokenize_nonstring_atom (c :: rest)
      .ok (some ⟨a⟩, r)
termination_by s => s.length
decreasing_by
  · have := tokenize_comment_length rest
    simp
    omega
  · simp

/-! ### The reader (reader.py)

Fueled mutual recursion (`none` = fuel exhausted); `ReadResult.eof`
models the distinguished non-interned `EOF` symbol. -/

inductive ReadResult where
  | eof
  | val (v : Value)

def read_boolean (tok : String) : Option Value :=
  if tok = "#t" then some (.boolean true)
  else if tok = "#f" then some (.boolean false)
  else none

/-- The de-escaping of `read_string`: the source strips the quotes then
applies `replace('\\"', '"')` followed by `replace('\\\\', '\\')`; on
every tokenizer-produced literal body (where each backslash starts a
valid escape) that composition equals this single left-to-right pass. -/
def unescapeChars : List Char → List Char
  | [] => []
  | c :: rest =>
    if c = '\\' then
      (match rest with
       | [] => ['\\']
       | c2 :: rest2 =>
         if c2 = '"' ∨ c2 = '\\' then c2 :: unescapeChars rest2
         else '\\' :: unescapeChars (c2 :: rest2))
    else c :: unescapeChars rest

def read_string (tok : String) : String :=
  ⟨unescapeChars (tok.data.drop 1).dropLast⟩

/-- `read_atom`'s priority cascade for non-quote, non-string atoms:
boolean, integer, decimal, and finally a symbol (which always succeeds). -/
def readAtomValue (tok : String) : Value :=
  match read_boolean tok with
  | some v => v
  | none =>
    match parseInt tok.data with
    | some n => .integer n
    | none =>
      match parseDec tok.data with
      | some d => .decimal d
      | none => .symbol tok

/-- The reconstructed quote symbol for a quote-prefix token. -/
def quoteName (tok : String) : Option String :=
  if tok = "'" then some "quote"
  else if tok = "`" then some "quasiquote"
  else if tok = "," then some "unquote"
  else if tok = ",@" then some "unquote-splicing"
  else none

mutual

/-- `read`: one form from the stream, or `EOF`. -/
def read : Nat → List Char → Option (Except PyError (ReadResult × List Char))
  | 0, _ => none
  | fuel + 1, s =>
    match read_token s with
    | .error e => some (.error e)
    | .ok (none, s1) => some (.ok (.eof, s1))
    | .ok (some tok, s1) =>
      if tok = ")" then some (.error .syntaxError)
      else if tok = "(" then
        match read_list fuel s1 with
        | none => none
        | some (.error e) => some (.error e)
        | some (.ok (v, s2)) => some (.ok (.val v, s2))
      else
        match read_atom fuel tok s1 with
        | none => none
        | some (.error e) => some (.error e)
        | some (.ok (v, s2)) => some (.ok (.val v, s2))

/-- `read_list`: the body of a list, after the opening paren. -/
def read_list : Nat → List Char → Option (Except PyError (Value × List Char))
  | 0, _ => none
  | fuel + 1, s =>
    match read_token s with
    | .error e => some (.error e)
    | .ok (none, _) => some (.error .syntaxError)
    | .ok (some tok, s1) =>
      if tok = ")" then some (.ok (.nil, s1))
      else if tok = "(" then
        match read_list fuel s1 with
        | none => none
        | some (.error e) => some (.error e)
        | some (.ok (v, s2)) =>
          match read_list_tail fuel s2 with
          | none => none
          | some (.error e) => some (.error e)
          | some (.ok (t, s3)) => some (.ok (.cons v t, s3))
      else
        match read_atom fuel tok s1 with
        | none => none
        | some (.error e) => some (.error e)
        | some (.ok (v, s2)) =>
          match read_list_tail fuel s2 with
          | none => none
          | some (.error e) => some (.error e)
          | some (.ok (t, s3)) => some (.ok (.cons v t, s3))

/-- `read_list_tail`: subsequent elements, the closing paren, or a dotted
tail. -/
def read_list_tail : Nat → List Char → Option (Except PyError (Value × List Char))
  | 0, _ => none
  | fuel + 1, s =>
    match read_token s with
    | .error e => some (.error e)
    | .ok (none, _) => some (.error .syntaxError)
    | .ok (some tok, s1) =>
      if tok = ")" then some (.ok (.nil, s1))
      else if tok = "(" then
        match read_list fuel s1 with
        | none => none
        | some (.error e) => some (.error e)
        | some (.ok (v, s2)) =>
          match read_list_tail fuel s2 with
          | none => none
          | some (.error e) => some (.error e)
          | some (.ok (t, s3)) => some (.ok (.cons v t, s3))
      else if tok = "." then read_cons_head fuel s1
      else
        match read_atom fuel tok s1 with
        | none => none
        | some (.error e) => some (.error e)
        | some (.ok (v, s2)) =>
          match read_list_tail fuel s2 with
          | none => none
          | some (.error e) => some (.error e)
          | some (.ok (t, s3)) => some (.ok (.cons v t, s3))

/-- `read_cons_head`: the first form after a dot. -/
def read_cons_head : Nat → List Char → Option (Except PyError (Value × List Char))
  | 0, _ => none
  | fuel + 1, s =>
    match read_token s with
    | .error e => some (.error e)
    | .ok (none, _) => some (.error .syntaxError)
    | .ok (some tok, s1) =>
      if tok = ")" then some (.error .syntaxError)
      else if tok = "(" then
        match read_list fuel s1 with
        | none => none
        | some (.error e) => some (.error e)
        | some (.ok (v, s2)) => read_cons_tail fuel v s2
      else
        match read_atom fuel tok s1 with
        | none => none
        | some (.error e) => some (.error e)
        | some (.ok (v, s2)) => read_cons_tail fuel v s2

/-- `read_cons_tail`: after a dotted tail value, expect `)` or another
dot. -/
def read_cons_tail : Nat → Value → List Char → Option (Except PyError (Value × List Char))
  | 0, _, _ => none
  | fuel + 1, hd, s =>
    match read_token s with
    | .error e => some (.error e)
    | .ok (none, _) => some (.error .syntaxError)
    | .ok (some tok, s1) =>
      if tok = ")" then some (.ok (hd, s1))
      else if tok = "." then
        match read_cons_head fuel s1 with
        | none => none
        | some (.error e) => some (.error e)
        | some (.ok (t, s2)) => some (.ok (.cons hd t, s2))
      else some (.error .syntaxError)

/-- `read_atom`: quote prefixes wrap the next form; string literals are
de-escaped; other atoms go through the priority cascade. -/
def read_atom : Nat → String → List Char → Option (Except PyError (Value × List Char))
  | 0, _, _ => none
  | fuel + 1, tok, s =>
    match quoteName tok with
    | some q =>
      (match read fuel s with
       | none => none
       | some (.error e) => some (.error e)
       | some (.ok (.eof, _)) => some (.error .syntaxError)
       | some (.ok (.val v, s2)) => some (.ok (list [.symbol q, v], s2)))
    | none =>
      if tok.data.head? = some '"' then some (.ok (.string (read_string tok), s))
      else some (.ok (readAtomValue tok, s))

end

/-! ### Reader-constructible, reprintable values

The round-trip claim quantifies over values the reader can construct.
`WFValue` captures that set, minus the shapes on which the claim fails
(see the round-trip theorems): every pair in display position whose head
is a quote symbol must be a proper two-element list, an `unquote` form's
argument must not be a symbol beginning with `@` (its display would fuse
with the `,` into a `,@` token), and the symbol `.` (which prints as the
dotted-pair marker) is excluded.  Host floats, vectors, procedures and
builtins are not reader-constructible. -/

/-- The characters that end a non-string atom token. -/
def delimChar (c : Char) : Bool :=
  c = '"' ∨ c = '(' ∨ c = ')' ∨ c = ';' ∨ c = ' ' ∨ c = '\t' ∨ c = '\n'

/-- Characters on which `tokenize_any` dispatches to the atom states. -/
def atomStartOk (c : Char) : Bool :=
  !delimChar c && c ≠ '\'' && c ≠ '`' && c ≠ ','

/-- Symbol texts the reader itself can produce (a single atom token that
fails the boolean/integer/decimal parses), except `.`. -/
def symbolOK (s : String) : Bool :=
  match s.data with
  | [] => false
  | c :: rest =>
    atomStartOk c && rest.all (fun x => !delimChar x) &&
      (read_boolean s).isNone && (parseInt s.data).isNone &&
      (parseDec s.data).isNone && s ≠ "."

/-- Is this a symbol whose text begins with `@`? -/
def atSymbol : Value → Bool
  | .symbol s => s.data.head? = some '@'
  | _ => false

mutual

/-- Reader-constructible values on which the (amended) round trip holds;
`spineWF` is the same condition for the tail position inside a displayed
cons spine, where the quote shorthand does not apply. -/
def WFValue : Value → Bool
  | .nil => true
  | .boolean _ => true
  | .integer _ => true
  | .decimal _ => true
  | .string _ => true
  | .symbol s => symbolOK s
  | .cons h t =>
    if quote_p (.cons h t) then
      match h, t with
      | .symbol q, .cons x .nil => WFValue x && !(q = "unquote" && atSymbol x)
      | _, _ => false
    else WFValue h && spineWF t
  | _ => false
termination_by v => (sizeOf v, 0)

def spineWF : Value → Bool
  | .nil => true
  | .cons h t => WFValue h && spineWF t
  | w => WFValue w
termination_by v => (sizeOf v, 1)

end

/-- Size measure used for reader fuel bounds. -/
def vsize : Value → Nat
  | .cons h t => 1 + vsize h + vsize t
  | _ => 1

/-- The display text of a value, defaulting to `[]` on the (excluded)
failing values; total so that proof statements stay first-order. -/
def dChars (v : Value) : List Char :=
  match display v with
  | .ok s => s
  | .error _ => []

/-- The text `display_cons` emits after the first element of a spine:
each further element preceded by a space, a dotted tail as `␣.␣tail`, and
the closing paren. -/
def spineChars : Value → List Char
  | .nil => [')']
  | .cons h t => ' ' :: (dChars h ++ spineChars t)
  | w => ' ' :: '.' :: ' ' :: (dChars w ++ [')'])

/-- Read back the display of a value (the round-trip composition). -/
def read_display (fuel : Nat) (v : Value) :
    Option (Except PyError (ReadResult × List Char)) :=
  match display v with
  | .error e => some (.error e)
  | .ok s => read fuel s

/-- Is the stream empty or starting with a token delimiter? (The contexts
in which one displayed form is followed by another always look like
this.) -/
def headDelim : List Char → Bool
  | [] => true
  | c :: _ => delimChar c

/-- \x7bThe stream `dChars v ++ r` yields one leading token whose reader
dispatch (either the list path or the atom path, never `)` or `.`)
consumes exactly `dChars v` and produces a value `==`-equal to `v`,
leaving `r`\x7d — the common element step shared by `read`, `read_list`,
`read_list_tail` and `read_cons_head`. -/
def ReadElemOK (f : Nat) (v : Value) (r : List Char) : Prop :=
  ∃ tok s1 w, read_token (dChars v ++ r) = .ok (some tok, s1) ∧
    tok ≠ ")" ∧ tok ≠ "." ∧ pyEq w v = true ∧
    ((tok = "(" ∧ read_list f s1 = some (.ok (w, r))) ∨
     (tok ≠ "(" ∧ read_atom f tok s1 = some (.ok (w, r))))

/-! # Theorems -/

/-! ## General-purpose lemmas -/

@[simp] lemma except_bind_ok {α β ε : Type _} (a : α) (f : α → Except ε β) :
    Except.bind (Except.ok a) f = f a := rfl

@[simp] lemma except_bind_error {α β ε : Type _} (e : ε) (f : α → Except ε β) :
    Except.bind (Except.error e) f = Except.error e := rfl

@[simp] lemma except_bindOp_ok {α β ε : Type _} (a : α) (f : α → Except ε β) :
    (Except.ok a : Except ε α) >>= f = f a := rfl

@[simp] lemma except_bindOp_error {α β ε : Type _} (e : ε) (f : α → Except ε β) :
    (Except.error e : Except ε α) >>= f = Except.error e := rfl

@[simp] lemma except_map_ok {α β ε : Type _} (a : α) (f : α → β) :
    Except.map f (Except.ok a : Except ε α) = Except.ok (f a) := rfl

@[simp] lemma except_map_error {α β ε : Type _} (e : ε) (f : α → β) :
    Except.map f (Except.error e : Except ε α) = Except.error e := rfl

@[simp] lemma except_pure_eq {α ε : Type _} (a : α) :
    (pure a : Except ε α) = Except.ok a := rfl

/-! ## C10: `list->vector` always raises -/

/-- C10: For every argument value, `list_to_vector` raises a host error
(`AttributeError`, from `flatten` doing attribute access on the
module-level `list` function object) and never returns a value. -/
theorem c10_list_to_vector_always_raises (v : Value) :
    list_to_vector v = .error .attributeError := rfl

/-! ## C1: branch truthiness -/

/-- C1 counterexample: the claim says the value `0` selects the true
branch (only `#f` being false); in fact `branch` uses host truthiness and
`0` chains to the false-branch continuation, which here differs from the
true branch. -/
theorem c1_counterexample :
    step (.branch (.literal (.integer 1) none) (.literal (.integer 2) none))
        emptyEnv emptyEnv [.integer 0] =
      .ok (some (.literal (.integer 2) none), emptyEnv, emptyEnv, []) ∧
    Cont.literal (.integer 2) none ≠ Cont.literal (.integer 1) none := by
  refine ⟨rfl, ?_⟩
  simp

/-- C1 amended: a `branch` continuation chains to the true branch exactly
when the consumed value is host-truthy; in particular `()`, `0`, `0.0`
and `""` are all falsy and select the false branch, and `#f` is the false
boolean. -/
theorem c1_branch_host_truthiness :
    (∀ (on_true on_false : Cont) (e m : Env) (v : Value),
      step (.branch on_true on_false) e m [v] =
        .ok (some (if truthy v then on_true else on_false), e, m, [])) ∧
    truthy .nil = false ∧
    truthy (.integer 0) = false ∧
    truthy (.decimal ⟨false, 0, -1⟩) = false ∧
    truthy (.string "") = false ∧
    (∀ b, truthy (.boolean b) = b) := by
  refine ⟨fun t f e m v => rfl, rfl, rfl, rfl, by decide, fun b => rfl⟩

/-! ## C9: `read_fully` and the peek buffer -/

/-- C9: On a port with buffered peeked characters, `read_fully` returns
the buffered characters followed by the rest of the underlying input but
leaves the peek buffer in place: a subsequent `read`, `peek`, or second
`read_fully` sees the previously peeked characters again. -/
theorem c9_read_fully_keeps_peek_buffer (p : Port) (h : p.peek_buffer ≠ [])
    (n : Nat) :
    (p.read_fully).2 = p.peek_buffer ++ p.file ∧
    (p.read_fully).1.peek_buffer = p.peek_buffer ∧
    ((p.read_fully).1.read n).2 = p.peek_buffer.take n ∧
    ((p.read_fully).1.peek n).2 = p.peek_buffer ∧
    ((p.read_fully).1.read_fully).2 = p.peek_buffer := by
  have hne : p.peek_buffer.isEmpty = false := by
    cases hb : p.peek_buffer with
    | nil => exact absurd hb h
    | cons c rest => simp [List.isEmpty]
  refine ⟨rfl, rfl, ?_, ?_, ?_⟩
  · simp [Port.read_fully, Port.read, hne]
  · simp [Port.read_fully, Port.peek, hne]
  · simp [Port.read_fully]

/-- C9 witness: a concrete port with one peeked character and one
unread character. -/
theorem c9_witness :
    (Port.mk ['b'] ['a']).peek_buffer ≠ [] ∧
    ((Port.mk ['b'] ['a']).read_fully).2 = ['a', 'b'] ∧
    (((Port.mk ['b'] ['a']).read_fully).1.read 1).2 = ['a'] ∧
    (((Port.mk ['b'] ['a']).read_fully).1.read_fully).2 = ['a'] := by
  have h := c9_read_fully_keeps_peek_buffer (Port.mk ['b'] ['a']) (by simp) 1
  exact ⟨by simp, h.1, h.2.2.1, h.2.2.2.2⟩

/-! ## C6: zero-body lambda expansion -/

/-- C6: the expander's own docstring (and the spec) promise
`(lambda F)` → `(lambda F (begin))`, but the code's `cons_p(form)` guard
is false for an empty body, so the zero-body lambda is returned
*unchanged*: the first conjunct evaluates the code on the failing shape.
The one-body and multi-body behaviours agree with the claim. -/
theorem c6_expand_lambda_zero_body_unchanged (F e1 e2 : Value) :
    expand_lambda (list [.symbol "lambda", F]) =
      .ok (list [.symbol "lambda", F]) ∧
    expand_lambda (list [.symbol "lambda", F, e1]) =
      .ok (list [.symbol "lambda", F, e1]) ∧
    expand_lambda (list [.symbol "lambda", F, e1, e2]) =
      .ok (list [.symbol "lambda", F,
        .cons (.symbol "begin") (list [e1, e2])]) := by
  refine ⟨rfl, rfl, rfl⟩

/-! ## C7: `define` with a non-symbol name -/

/-- C7 counterexample: `(define 5 6)` raises `RuntimeError`, not
`EvalError` as the claim states. -/
theorem c7_counterexample :
    define (list [.integer 5, .integer 6]) none .toValue =
      .error .runtimeError ∧
    PyError.runtimeError ≠ PyError.evalError := by
  refine ⟨?_, by decide⟩
  simp [define, list, display, quote_p]

/-- C7 amended: a non-symbol name makes `define` evaluate
`display(name)` for the error message and then raise host `RuntimeError`
(not `EvalError`), so when the display itself raises — as for the name
`(quote)`, whose display is a host `ValueError` — that error propagates
instead of `RuntimeError`.  When the name is a symbol the form compiles
to the evaluation of `e` chained into a `bind` continuation for the
value environment, and stepping that `bind` continuation with a value
defines the symbol in the value environment (where `find` then sees it)
and chains on. -/
theorem c7_define_bind :
    (∀ (s e : Value) (k : Option Cont), symbol_p s = false →
      define (list [s, e]) k .toValue =
        (display s) >>= fun _ => .error .runtimeError) ∧
    define (list [list [.symbol "quote"], .integer 1]) none .toValue =
      .error .valueError ∧
    (∀ (s : String) (e : Value) (k : Option Cont),
      define (list [.symbol s, e]) k .toValue =
        (eval e (some (.bind s k))).map .defineWrap) ∧
    (∀ (s : String) (k : Option Cont) (env macros : Env) (v : Value),
      step (.bind s k) env macros [v] = .ok (k, env.define s v, macros, [])) ∧
    (∀ (s : String) (env : Env) (v : Value),
      (env.define s v).find s = .ok v) := by
  refine ⟨fun s e k hs => ?_, ?_, fun s e k => ?_, fun s k env macros v => rfl,
    fun s env v => ?_⟩
  · cases s with
    | symbol s2 => exact absurd hs (by simp [symbol_p])
    | nil => simp [define, list]
    | boolean b => simp [define, list]
    | integer n => simp [define, list]
    | decimal d => simp [define, list]
    | pfloat => simp [define, list]
    | string s2 => simp [define, list]
    | cons a b => simp [define, list]
    | vector l => simp [define, list]
    | builtin name => simp [define, list]
    | procedure p => simp [define, list]
  · have hdisp : display (Value.cons (.symbol "quote") .nil) =
        .error .valueError := by
      rw [display.eq_def, display_quote.eq_def]
      rfl
    simp [define, list, hdisp]
  · simp [define, list, mkBindCont]
  · obtain ⟨t, p⟩ := env
    simp [Env.define, Env.find, List.lookup]

/-- C7 witness: the non-symbol branch of the theorem at the concrete
form `(define 5 6)`: `5` is not a symbol, and the compile is the display
of `5` followed by `RuntimeError`. -/
theorem c7_witness :
    symbol_p (.integer 5) = false ∧
    define (list [.integer 5, .integer 6]) none .toValue =
      (display (.integer 5)) >>= fun _ => .error .runtimeError :=
  ⟨rfl, c7_define_bind.1 (.integer 5) (.integer 6) none rfl⟩

/-! ## C8: malformed special forms raise `AttributeError` -/

/-- C8 counterexample: expanding the malformed special form `(if)` raises
host `AttributeError` (attribute access on a non-pair inside `uncons`),
not `ExpansionError`, which the source defines but never raises. -/
theorem c8_counterexample :
    expand 1 (list [.symbol "if"]) emptyEnv = some (.error .attributeError) ∧
    PyError.attributeError ≠ PyError.expansionError := by
  refine ⟨rfl, by decide⟩

/-- C8 amended: for each of the expander's special forms, a shape the
destructuring cannot take apart raises host `AttributeError` (never
`ExpansionError`): `(if c)` for any `c`, and the bare `(if)`, `(define)`,
`(define-macro)`, `(lambda)`, `(quasiquote)`, as well as `(define s)`
with a non-pair `s`. -/
theorem c8_malformed_forms_attribute_error (c : Value) :
    expand 1 (list [.symbol "if", c]) emptyEnv = some (.error .attributeError) ∧
    expand 1 (list [.symbol "define"]) emptyEnv = some (.error .attributeError) ∧
    (¬ cons_p c →
      expand 1 (list [.symbol "define", c]) emptyEnv =
        some (.error .attributeError)) ∧
    expand 1 (list [.symbol "define-macro"]) emptyEnv =
      some (.error .attributeError) ∧
    expand 1 (list [.symbol "lambda"]) emptyEnv = some (.error .attributeError) ∧
    expand 1 (list [.symbol "quasiquote"]) emptyEnv =
      some (.error .attributeError) := by
  refine ⟨rfl, rfl, ?_, rfl, rfl, rfl⟩
  intro h
  have hc : cons_p c = false := by
    cases hcp : cons_p c with
    | false => rfl
    | true => exact absurd hcp h
  simp [expand, expand_define, expand_lambda_define, uncons, head, tail, list, hc]

/-- C8 witness: the hypothesis-bearing conjunct at `c = x` (a symbol,
not a pair). -/
theorem c8_witness :
    expand 1 (list [.symbol "define", .symbol "x"]) emptyEnv =
      some (.error .attributeError) :=
  (c8_malformed_forms_attribute_error (.symbol "x")).2.2.1 (by decide)

/-! ## C2: `tail_graft` and environment restoration -/

/-- C2 counterexample: a procedure whose body is
`(define-macro b (quote 1))`, compiled exactly as the evaluator compiles
it, called through `invoke` with a non-`⊥` target continuation from a
caller whose macro environment is `cmac`.  When the callee's chain
reaches `⊥`, the grafted continuation hands off to the target with the
caller's *value* environment, but with the *callee's* macro environment
(the fresh child extended with `b`), which differs from `cmac`: the
claim's "caller's macro environment restored" is false here. -/
theorem c2_counterexample :
    eval (list [.symbol "define-macro", .symbol "b",
        list [.symbol "quote", .integer 1]]) none =
      .ok (.defineWrap (.literal (.integer 1) (some (.macro_bind "b" none)))) ∧
    step (.invoke (some (.literal .nil none)))
        (.mk [("e", .integer 1)] none) (.mk [("m", .integer 1)] none)
        [.procedure (.mk
          (list [.symbol "define-macro", .symbol "b",
            list [.symbol "quote", .integer 1]])
          [] .nil emptyEnv emptyEnv
          (.defineWrap (.literal (.integer 1) (some (.macro_bind "b" none)))))] =
      .ok (some (.guard (.literal .nil none)
            (.mk [("e", .integer 1)] none) (.mk [("m", .integer 1)] none)
            (.defineWrap (.literal (.integer 1) (some (.macro_bind "b" none))))),
          .mk [] (some emptyEnv),
          .mk [] (some (.mk [("m", .integer 1)] none)), []) ∧
    iterate 3 (.ok (some (.guard (.literal .nil none)
          (.mk [("e", .integer 1)] none) (.mk [("m", .integer 1)] none)
          (.defineWrap (.literal (.integer 1) (some (.macro_bind "b" none))))),
        .mk [] (some emptyEnv),
        .mk [] (some (.mk [("m", .integer 1)] none)), [])) =
      .ok (some (.literal .nil none), .mk [("e", .integer 1)] none,
        .mk [("b", .integer 1)] (some (.mk [("m", .integer 1)] none)), []) ∧
    Env.mk [("b", .integer 1)] (some (.mk [("m", .integer 1)] none)) ≠
      Env.mk [("m", .integer 1)] none := by
  refine ⟨?_, ?_, ?_, by simp⟩
  · simp [eval, define, quote, list, list_p, mkBindCont]
  · simp [step, Procedure.invocation_environment, Procedure.formals,
      Procedure.tail_formal, Procedure.environment, Procedure.continuation,
      truthy, Env.ofBindings, tail_graft, list, bindablePairs]
  · simp [iterate, step, truthy, Env.define]

/-- C2 amended: a Procedure call made by `invoke` with a non-`⊥` target
continuation jumps to `tail_graft` of the callee's precompiled
continuation; when the callee's chain eventually chains to `⊥` with
result values `v`, the grafted continuation instead chains to the target
with the *caller's value environment* restored, passing `v` — but with
the macro environment produced by the callee's chain (the guard's
`macros` parameter shadows the captured caller macros, so the caller's
macro environment is not restored). -/
theorem c2_invoke_tail_graft :
    (∀ (k' : Option Cont) (env macros : Env) (p : Procedure)
        (args : List Value) (call_env : Env),
      p.invocation_environment args = .ok call_env →
      step (.invoke k') env macros (.procedure p :: args) =
        .ok (some (tail_graft k' env macros p.continuation),
             call_env, .mk [] (some macros), [])) ∧
    (∀ (fuel : Nat) (guarded : Cont) (env macros e' m' : Env)
        (vs args : List Value) (k : Cont) (cenv cmac : Env),
      run fuel (some guarded) env macros args = some (.ok (e', m', vs)) →
      ∃ n, iterate n (.ok (some (.guard k cenv cmac guarded), env, macros, args)) =
          .ok (some k, cenv, m', vs)) := by
  constructor
  · intro k' env macros p args call_env hinv
    simp [step, hinv]
  · intro fuel
    induction fuel with
    | zero =>
      intro guarded env macros e' m' vs args k cenv cmac h
      simp [run] at h
    | succ f ih =>
      intro guarded env macros e' m' vs args k cenv cmac h
      rw [run] at h
      cases hstep : step guarded env macros args with
      | error e => rw [hstep] at h; simp at h
      | ok r =>
        obtain ⟨k2, e2, m2, a2⟩ := r
        rw [hstep] at h
        simp only [] at h
        cases k2 with
        | none =>
          rw [run] at h
          simp only [Option.some.injEq, Except.ok.injEq, Prod.mk.injEq] at h
          obtain ⟨he, hm, hv⟩ := h
          refine ⟨1, ?_⟩
          simp [iterate, step, hstep, he, hm, hv]
        | some nxt =>
          obtain ⟨n', hn⟩ := ih nxt e2 m2 e' m' vs a2 k cenv m2 h
          refine ⟨n' + 1, ?_⟩
          have : iterate (n' + 1)
              (.ok (some (.guard k cenv cmac guarded), env, macros, args)) =
              iterate n' (step (.guard k cenv cmac guarded) env macros args) := by
            simp [iterate]
          rw [this]
          have hg : step (.guard k cenv cmac guarded) env macros args =
              .ok (some (.guard k cenv m2 nxt), e2, m2, a2) := by
            simp [step, hstep]
          rw [hg]
          exact hn

/-- C2 witness: a one-step callee chain (`macro_bind`) that reaches `⊥`
having extended the macro environment; the graft hands off to the target
with the caller's value environment and that extended macro
environment. -/
theorem c2_witness :
    run 1 (some (.macro_bind "b" none)) emptyEnv emptyEnv [.integer 7] =
      some (.ok (emptyEnv, Env.mk [("b", .integer 7)] none, [])) ∧
    ∃ n, iterate n (.ok (some (.guard (.literal .nil none)
          (.mk [("e", .integer 1)] none) (.mk [("m", .integer 1)] none)
          (.macro_bind "b" none)), emptyEnv, emptyEnv, [.integer 7])) =
        .ok (some (.literal .nil none), .mk [("e", .integer 1)] none,
          Env.mk [("b", .integer 7)] none, []) := by
  have hrun : run 1 (some (.macro_bind "b" none)) emptyEnv emptyEnv [.integer 7] =
      some (.ok (emptyEnv, Env.mk [("b", .integer 7)] none, [])) := by
    simp [run, step, Env.define, emptyEnv]
  exact ⟨hrun, c2_invoke_tail_graft.2 1 (.macro_bind "b" none) emptyEnv emptyEnv
    emptyEnv (Env.mk [("b", .integer 7)] none) [] [.integer 7]
    (.literal .nil none) (.mk [("e", .integer 1)] none)
    (.mk [("m", .integer 1)] none) hrun⟩

/-! ## C4: the `/` primitive -/

lemma map_integer_no_decimal (ints : List Int) :
    (ints.map Value.integer).any decimal_p = false := by
  induction ints with
  | nil => rfl
  | cons i rest ih => simp [decimal_p, ih]

lemma decFix_cases (s : Bool) (c : Nat) (e : Int) :
    (∃ d, decFix s c e = .ok d) ∨ decFix s c e = .error .decimalOverflow := by
  simp only [decFix]
  repeat' split
  all_goals first
    | exact Or.inl ⟨_, rfl⟩
    | exact Or.inr rfl

lemma decDiv_cases (x y : Dec) (h : y.coeff ≠ 0) :
    (∃ d, decDiv x y = .ok d) ∨ decDiv x y = .error .decimalOverflow := by
  simp only [decDiv, h, if_false]
  repeat' split
  all_goals exact decFix_cases _ _ _

lemma reduceM_floor_ints (ints : List Int) :
    ∀ a : Int, (∀ i ∈ ints, i ≠ 0) →
      ∃ n, reduceM pyFloorDiv (.integer a) (ints.map .integer) = .ok (.integer n) := by
  induction ints with
  | nil => exact fun a _ => ⟨a, rfl⟩
  | cons i rest ih =>
    intro a h
    have hi : i ≠ 0 := h i (by simp)
    have step1 : pyFloorDiv (.integer a) (.integer i) = .ok (.integer (Int.fdiv a i)) := by
      simp [pyFloorDiv, pyNumAsInt, hi]
    obtain ⟨n, hn⟩ := ih (Int.fdiv a i) (fun j hj => h j (by simp [hj]))
    exact ⟨n, by simp [reduceM, step1, hn]⟩

lemma pyTrueDiv_dec_divisor (x : Dec) (b : Value) (hb : divisorOk b) :
    (∃ d, pyTrueDiv (.decimal x) b = .ok (.decimal d)) ∨
      pyTrueDiv (.decimal x) b = .error .decimalOverflow := by
  match b with
  | .integer n =>
    have hn : n ≠ 0 := by simpa [divisorOk] using hb
    have hc : (intToDec n).coeff ≠ 0 := by
      simp [intToDec]
      omega
    rcases decDiv_cases x (intToDec n) hc with ⟨d, hd⟩ | hd
    · exact Or.inl ⟨d, by simp [pyTrueDiv, pyNumAsInt, hd]⟩
    · exact Or.inr (by simp [pyTrueDiv, pyNumAsInt, hd])
  | .boolean b2 =>
    have hb2 : b2 = true := by simpa [divisorOk] using hb
    subst hb2
    have hc : (intToDec 1).coeff ≠ 0 := by simp [intToDec]
    rcases decDiv_cases x (intToDec 1) hc with ⟨d, hd⟩ | hd
    · exact Or.inl ⟨d, by simp [pyTrueDiv, pyNumAsInt, hd]⟩
    · exact Or.inr (by simp [pyTrueDiv, pyNumAsInt, hd])
  | .decimal y =>
    have hy : y.coeff ≠ 0 := by simpa [divisorOk] using hb
    rcases decDiv_cases x y hy with ⟨d, hd⟩ | hd
    · exact Or.inl ⟨d, by simp [pyTrueDiv, hd]⟩
    · exact Or.inr (by simp [pyTrueDiv, hd])

lemma reduceM_true_dec (rest : List Value) :
    ∀ x : Dec, (∀ v ∈ rest, divisorOk v) →
      (∃ d, reduceM pyTrueDiv (.decimal x) rest = .ok (.decimal d)) ∨
        reduceM pyTrueDiv (.decimal x) rest = .error .decimalOverflow := by
  induction rest with
  | nil => exact fun x _ => Or.inl ⟨x, rfl⟩
  | cons b rest ih =>
    intro x h
    rcases pyTrueDiv_dec_divisor x b (h b (by simp)) with ⟨d1, hd1⟩ | hd1
    · rcases ih d1 (fun v hv => h v (by simp [hv])) with ⟨d2, hd2⟩ | hd2
      · exact Or.inl ⟨d2, by simp [reduceM, hd1, hd2]⟩
      · exact Or.inr (by simp [reduceM, hd1, hd2])
    · exact Or.inr (by simp [reduceM, hd1])

lemma reduceM_pfloat_hits_decimal (ints : List Int) (d : Dec) (rest : List Value) :
    (∀ i ∈ ints, i ≠ 0) →
    reduceM pyTrueDiv .pfloat (ints.map .integer ++ .decimal d :: rest) =
      .error .typeError := by
  induction ints with
  | nil => intro _; simp [reduceM, pyTrueDiv]
  | cons i rest2 ih =>
    intro h
    have hi : i ≠ 0 := h i (by simp)
    have step1 : pyTrueDiv .pfloat (.integer i) = .ok .pfloat := by
      simp [pyTrueDiv, pyNumAsInt, hi]
    simp only [List.map_cons, List.cons_append, reduceM, step1, except_bindOp_ok]
    exact ih (fun j hj => h j (by simp [hj]))

set_option maxRecDepth 8000 in
/-- C4 counterexample: `(/ 1 2 2.0)` has a Decimal argument, so the code
reduces with true division — but `1/2` is a host *float*, and dividing a
float by a Decimal raises host `TypeError`, so the result is not a
Decimal as the claim states. -/
theorem c4_counterexample :
    __floordiv__ [.integer 1, .integer 2, .decimal ⟨false, 20, -1⟩] =
      .error .typeError := rfl

set_option maxRecDepth 8000 in
/-- C4 amended: `/` selects true division when any argument is a Decimal
and floor division otherwise, reducing left to right.  Floor division on
nonzero integer divisors yields an integer.  When a Decimal appears among
the first two arguments and every divisor is nonzero, the true-division
reduction yields a Decimal unless a quotient leaves the default decimal
context's exponent range, in which case the trapped `decimal.Overflow`
is raised.  When two integers precede the first Decimal, the leading
`int/int` is a host *float* step: it raises `OverflowError` when the
quotient exceeds the float range, and otherwise the later float/Decimal
division raises host `TypeError` — never a Decimal result.  `(/ 1 2)` is
the integer `0`, `(/ 1 2.0)` is the Decimal `0.5`,
`(/ 1E999999 1E-999999)` raises `decimal.Overflow`, and
`(/ 10^400 1 2.0)` raises `OverflowError`. -/
theorem c4_floordiv_division_rules :
    (∀ (a : Int) (ints : List Int), (∀ i ∈ ints, i ≠ 0) →
      ∃ n, __floordiv__ (.integer a :: ints.map .integer) = .ok (.integer n)) ∧
    (∀ (x : Dec) (rest : List Value), (∀ v ∈ rest, divisorOk v) →
      (∃ d, __floordiv__ (.decimal x :: rest) = .ok (.decimal d)) ∨
        __floordiv__ (.decimal x :: rest) = .error .decimalOverflow) ∧
    (∀ (n : Int) (y : Dec) (rest : List Value),
      (∀ v ∈ rest, divisorOk v) → y.coeff ≠ 0 →
      (∃ d, __floordiv__ (.integer n :: .decimal y :: rest) =
        .ok (.decimal d)) ∨
        __floordiv__ (.integer n :: .decimal y :: rest) =
          .error .decimalOverflow) ∧
    (∀ (n m : Int) (ints : List Int) (d : Dec) (rest : List Value),
      m ≠ 0 → (∀ i ∈ ints, i ≠ 0) →
      __floordiv__ (.integer n :: .integer m ::
          (ints.map .integer ++ .decimal d :: rest)) =
        (if floatDivOverflows n m then .error .overflowError
         else .error .typeError)) ∧
    __floordiv__ [.integer 1, .integer 2] = .ok (.integer 0) ∧
    __floordiv__ [.integer 1, .decimal ⟨false, 20, -1⟩] =
      .ok (.decimal ⟨false, 5, -1⟩) ∧
    __floordiv__ [.decimal ⟨false, 1, 999999⟩, .decimal ⟨false, 1, -999999⟩] =
      .error .decimalOverflow ∧
    __floordiv__ [.integer (10 ^ 400), .integer 1, .decimal ⟨false, 2, 0⟩] =
      .error .overflowError := by
  refine ⟨?_, ?_, ?_, ?_, rfl, ?_, ?_, ?_⟩
  · intro a ints h
    obtain ⟨n, hn⟩ := reduceM_floor_ints ints a h
    exact ⟨n, by simp [__floordiv__, map_integer_no_decimal, decimal_p, hn]⟩
  · intro x rest h
    rcases reduceM_true_dec rest x h with ⟨d, hd⟩ | hd
    · exact Or.inl ⟨d, by simp [__floordiv__, decimal_p, hd]⟩
    · exact Or.inr (by simp [__floordiv__, decimal_p, hd])
  · intro n y rest h hy
    have hstep : (∃ d1, pyTrueDiv (.integer n) (.decimal y) =
        .ok (.decimal d1)) ∨
        pyTrueDiv (.integer n) (.decimal y) = .error .decimalOverflow := by
      rcases decDiv_cases (intToDec n) y hy with ⟨d1, hd1⟩ | hd1
      · exact Or.inl ⟨d1, by simp [pyTrueDiv, pyNumAsInt, hd1]⟩
      · exact Or.inr (by simp [pyTrueDiv, pyNumAsInt, hd1])
    rcases hstep with ⟨d1, hd1⟩ | hd1
    · rcases reduceM_true_dec rest d1 h with ⟨d2, hd2⟩ | hd2
      · exact Or.inl ⟨d2, by
          simp [__floordiv__, decimal_p, reduceM, hd1, hd2]⟩
      · exact Or.inr (by simp [__floordiv__, decimal_p, reduceM, hd1, hd2])
    · exact Or.inr (by simp [__floordiv__, decimal_p, reduceM, hd1])
  · intro n m ints d rest hm hints
    by_cases hov : floatDivOverflows n m = true
    · rw [if_pos hov]
      have step1 : pyTrueDiv (.integer n) (.integer m) =
          .error .overflowError := by
        simp [pyTrueDiv, pyNumAsInt, hm, hov]
      simp [__floordiv__, decimal_p, reduceM, step1]
    · rw [if_neg hov]
      have step1 : pyTrueDiv (.integer n) (.integer m) = .ok .pfloat := by
        simp [pyTrueDiv, pyNumAsInt, hm, hov]
      have := reduceM_pfloat_hits_decimal ints d rest hints
      simp [__floordiv__, decimal_p, reduceM, step1, this]
  · rfl
  · rfl
  · rfl

/-- C4 witness: the hypothesis-bearing conjuncts at concrete inputs:
`(/ 6 3)` floor-divides to an integer, `(/ 4.0 2)` and `(/ 1 2.0)` yield
Decimals (or, as the disjunction allows, an overflow — here they land in
the Decimal branch), and `(/ 1 2 2.0)` takes the non-overflow branch to
`TypeError`. -/
theorem c4_witness :
    (∃ n, __floordiv__ [.integer 6, .integer 3] = .ok (.integer n)) ∧
    ((∃ d, __floordiv__ [.decimal ⟨false, 40, -1⟩, .integer 2] =
        .ok (.decimal d)) ∨
      __floordiv__ [.decimal ⟨false, 40, -1⟩, .integer 2] =
        .error .decimalOverflow) ∧
    ((∃ d, __floordiv__ [.integer 1, .decimal ⟨false, 20, -1⟩] =
        .ok (.decimal d)) ∨
      __floordiv__ [.integer 1, .decimal ⟨false, 20, -1⟩] =
        .error .decimalOverflow) ∧
    __floordiv__ [.integer 1, .integer 2, .decimal ⟨false, 20, -1⟩] =
      (if floatDivOverflows 1 2 then .error .overflowError
       else .error .typeError) := by
  refine ⟨?_, ?_, ?_, ?_⟩
  · exact c4_floordiv_division_rules.1 6 [3] (by decide)
  · exact c4_floordiv_division_rules.2.1 ⟨false, 40, -1⟩ [.integer 2] (by decide)
  · exact c4_floordiv_division_rules.2.2.1 1 ⟨false, 20, -1⟩ [] (by simp) (by decide)
  · exact c4_floordiv_division_rules.2.2.2.1 1 2 [] ⟨false, 20, -1⟩ []
      (by decide) (by simp)

/-! ## C5: procedure arity and the invocation environment -/

lemma list_lookup_append (xs ys : List (String × Value)) (s : String) :
    (xs ++ ys).lookup s = ((xs.lookup s).or (ys.lookup s)) := by
  induction xs with
  | nil => simp [List.lookup]
  | cons a xs ih =>
    obtain ⟨k, v⟩ := a
    simp only [List.cons_append, List.lookup]
    cases hk : s == k
    · simp [ih]
    · simp

lemma list_lookup_eq_none (xs : List (String × Value)) (s : String)
    (h : s ∉ xs.map Prod.fst) : xs.lookup s = none := by
  induction xs with
  | nil => rfl
  | cons a xs ih =>
    obtain ⟨k, v⟩ := a
    simp only [List.map_cons, List.mem_cons] at h
    push_neg at h
    have hk : (s == k) = false := beq_eq_false_iff_ne.mpr h.1
    simp only [List.lookup, hk]
    exact ih h.2

lemma lookup_reverse_of_mem_nodup (xs : List (String × Value))
    (hnd : (xs.map Prod.fst).Nodup) (s : String) (v : Value)
    (h : (s, v) ∈ xs) : xs.reverse.lookup s = some v := by
  induction xs with
  | nil => simp at h
  | cons a xs ih =>
    obtain ⟨k, w⟩ := a
    simp only [List.map_cons, List.nodup_cons] at hnd
    rcases List.mem_cons.mp h with heq | hmem
    · injection heq with h1 h2
      subst h1; subst h2
      have hnone : xs.reverse.lookup s = none := by
        apply list_lookup_eq_none
        simp only [List.map_reverse, List.mem_reverse]
        exact hnd.1
      simp [List.reverse_cons, list_lookup_append, hnone, List.lookup]
    · have hrec := ih hnd.2 hmem
      simp [List.reverse_cons, list_lookup_append, hrec]

lemma ofBindings_eq (bs : List (String × Value)) (p : Option Env) :
    Env.ofBindings bs p = .mk bs.reverse p := by
  suffices h : ∀ t0 : List (String × Value),
      bs.foldl (fun e sv => e.define sv.1 sv.2) (Env.mk t0 p) =
        Env.mk (bs.reverse ++ t0) p by
    simpa [Env.ofBindings] using h []
  induction bs with
  | nil => intro t0; simp
  | cons a bs ih =>
    intro t0
    obtain ⟨s, v⟩ := a
    have hstep : List.foldl (fun e sv => e.define sv.1 sv.2)
        (Env.mk t0 p) ((s, v) :: bs) =
        List.foldl (fun e sv => e.define sv.1 sv.2) (Env.mk ((s, v) :: t0) p) bs :=
      rfl
    rw [hstep, ih ((s, v) :: t0)]
    simp

lemma bindablePairs_symbols (names : List String) :
    ∀ args : List Value,
      bindablePairs ((names.map Value.symbol).zip args) = names.zip args := by
  induction names with
  | nil => intro args; simp [bindablePairs]
  | cons n ns ih =>
    intro args
    cases args with
    | nil => simp [bindablePairs]
    | cons a as =>
      simp only [List.map_cons, List.zip_cons_cons, bindablePairs]
      exact congrArg _ (ih as)

/-- C5 counterexample: the claim says an arity mismatch raises
`ProcedureError`, but the error message interpolates `display` of the
arguments; calling a zero-argument procedure with the (reader-
constructible) one-element list `(quote)` as its argument makes that
`display` raise `ValueError` instead. -/
theorem c5_counterexample :
    (Procedure.mk .nil [] .nil emptyEnv emptyEnv
        (.literal .nil none)).invocation_environment
      [.cons (.symbol "quote") .nil] = .error .valueError ∧
    PyError.valueError ≠ PyError.procedureError := by
  constructor
  · simp [Procedure.invocation_environment, Procedure.formals,
      Procedure.tail_formal, Procedure.environment, truthy, list, append2,
      display, display_quote, display_cons, displayParts, quote_p, flatten,
      display_nil]
  · decide

/-- C5 amended: with `m` arguments and `n` formals, if `m < n`, or
`m > n` with no (truthy) tail formal, `invocation_environment` raises
`ProcedureError` — provided the `display` calls interpolated into its
message succeed (an argument whose display raises, e.g. an ill-formed
quote list, propagates that host error instead).  Otherwise it binds each
formal to the corresponding argument, binds the tail formal (when
present) to the list of the remaining arguments, and the new
environment's parent is the procedure's captured environment. -/
theorem c5_invocation_environment (p : Procedure) (args : List Value) :
    ((args.length < p.formals.length ∨
        (args.length > p.formals.length ∧ ¬ truthy p.tail_formal)) →
      ∀ sx d1 d2, append2 (list p.formals) p.tail_formal = .ok sx →
        display sx = .ok d1 → display (list args) = .ok d2 →
        p.invocation_environment args = .error .procedureError) ∧
    (∀ names : List String, p.formals = names.map .symbol → names.Nodup →
      p.tail_formal = .nil → args.length = names.length →
      ∃ env, p.invocation_environment args = .ok env ∧
        env.parent = some p.environment ∧
        ∀ s v, (s, v) ∈ names.zip args → env.find s = .ok v) ∧
    (∀ (names : List String) (tname : String),
      p.formals = names.map .symbol → names.Nodup →
      p.tail_formal = .symbol tname → tname ∉ names →
      names.length ≤ args.length →
      ∃ env, p.invocation_environment args = .ok env ∧
        env.parent = some p.environment ∧
        (∀ s v, (s, v) ∈ names.zip args → env.find s = .ok v) ∧
        env.find tname = .ok (list (args.drop names.length))) := by
  refine ⟨?_, ?_, ?_⟩
  · intro harity sx d1 d2 hsx hd1 hd2
    rw [Procedure.invocation_environment, if_pos harity]
    simp [hsx, hd1, hd2]
  · intro names hf hnd htf hlen
    have harity : ¬ (args.length < p.formals.length ∨
        (args.length > p.formals.length ∧ ¬ truthy p.tail_formal)) := by
      rw [hf, htf]
      simp [truthy, hlen]
    rw [Procedure.invocation_environment, if_neg harity]
    rw [htf, hf]
    simp only [truthy, if_false, Bool.false_eq_true]
    rw [bindablePairs_symbols names args]
    refine ⟨_, rfl, ?_, ?_⟩
    · rw [ofBindings_eq]
      simp [Env.parent]
    · intro s v hmem
      rw [ofBindings_eq]
      have hkeys : ((names.zip args).map Prod.fst).Nodup := by
        rw [List.map_fst_zip names args (le_of_eq hlen.symm)]
        exact hnd
      have hlook := lookup_reverse_of_mem_nodup (names.zip args) hkeys s v hmem
      simp [Env.find, hlook]
  · intro names tname hf hnd htf htn hlen
    have harity : ¬ (args.length < p.formals.length ∨
        (args.length > p.formals.length ∧ ¬ truthy p.tail_formal)) := by
      rw [hf, htf]
      simp only [List.length_map, truthy, not_true, and_false, or_false]
      omega
    rw [Procedure.invocation_environment, if_neg harity]
    rw [htf, hf]
    simp only [truthy, if_true, List.length_map]
    rw [bindablePairs_symbols names args]
    have hkeys : ((names.zip args).map Prod.fst).Nodup := by
      rw [List.map_fst_zip names args hlen]
      exact hnd
    refine ⟨_, rfl, ?_, ?_, ?_⟩
    · rw [ofBindings_eq]
      simp [Env.parent]
    · intro s v hmem
      rw [ofBindings_eq]
      have hs : s ∈ names := (List.of_mem_zip hmem).1
      have hsne : (s == tname) = false :=
        beq_eq_false_iff_ne.mpr (fun hts => htn (hts ▸ hs))
      have hlook := lookup_reverse_of_mem_nodup (names.zip args) hkeys s v hmem
      simp [Env.find, List.reverse_append, List.lookup, hsne, hlook]
    · rw [ofBindings_eq]
      simp [Env.find, List.reverse_append, List.lookup]

/-- C5 witness: a two-formal procedure `(a b)` called correctly binds
both formals; called with one argument it raises `ProcedureError`. -/
theorem c5_witness :
    (∃ env, (Procedure.mk .nil [.symbol "a", .symbol "b"] .nil emptyEnv emptyEnv
        (.literal .nil none)).invocation_environment
          [.integer 1, .integer 2] = .ok env ∧
      env.parent = some emptyEnv ∧
      ∀ s v, (s, v) ∈ [("a", Value.integer 1), ("b", Value.integer 2)] →
        env.find s = .ok v) ∧
    (Procedure.mk .nil [.symbol "a", .symbol "b"] .nil emptyEnv emptyEnv
        (.literal .nil none)).invocation_environment [.integer 1] =
      .error .procedureError := by
  constructor
  · have h := (c5_invocation_environment
      (Procedure.mk .nil [.symbol "a", .symbol "b"] .nil emptyEnv emptyEnv
        (.literal .nil none)) [.integer 1, .integer 2]).2.1
      ["a", "b"] rfl (by decide) rfl rfl
    obtain ⟨env, h1, h2, h3⟩ := h
    exact ⟨env, h1, h2, fun s v hm => h3 s v (by simpa using hm)⟩
  · exact (c5_invocation_environment
      (Procedure.mk .nil [.symbol "a", .symbol "b"] .nil emptyEnv emptyEnv
        (.literal .nil none)) [.integer 1]).1
      (by simp [Procedure.formals]) (.cons (.symbol "a") (.cons (.symbol "b") .nil))
      "(a b)".data "(1)".data (by simp [Procedure.formals, Procedure.tail_formal, list, append2])
      (by simp [display, quote_p, display_cons, displayParts, display_nil]; decide)
      (by simp [display, quote_p, display_cons, displayParts, list,
        display_integer, digitsStr, natDigits, natDigitsAux, digitChar]; decide)

/-! ## C3: the reader/printer round trip

The development proceeds bottom-up: digit strings, decimal notation,
string escapes, tokenizer behaviour on displayed text, display shape,
and finally the mutual reading-back induction. -/

/-! ### Digit strings -/

lemma natDigitsAux_eq (fuel : Nat) :
    ∀ n, n ≤ fuel → natDigitsAux fuel n = Nat.digits 10 n := by
  induction fuel with
  | zero =>
    intro n hn
    interval_cases n
    simp [natDigitsAux, Nat.digits_zero]
  | succ f ih =>
    intro n hn
    cases n with
    | zero => simp [natDigitsAux, Nat.digits_zero]
    | succ m =>
      rw [natDigitsAux, Nat.digits_def' (by norm_num : 1 < 10) (Nat.succ_pos m)]
      congr 1
      exact ih _ (by omega)

lemma natDigits_eq (n : Nat) : natDigits n = Nat.digits 10 n :=
  natDigitsAux_eq n n le_rfl

lemma charDigit_digitChar (d : Nat) (hd : d < 10) : charDigit (digitChar d) = d := by
  interval_cases d <;> decide

lemma isDigitChar_digitChar (d : Nat) (hd : d < 10) :
    isDigitChar (digitChar d) = true := by
  interval_cases d <;> decide

lemma digitsStr_all_digits (n : Nat) :
    ∀ c ∈ digitsStr n, isDigitChar c = true := by
  intro c hc
  unfold digitsStr at hc
  split at hc
  · simp at hc
    subst hc
    decide
  · rw [natDigits_eq] at hc
    simp only [List.mem_map, List.mem_reverse] at hc
    obtain ⟨d, hd, hcd⟩ := hc
    have hlt : d < 10 := Nat.digits_lt_base (by norm_num) hd
    rw [← hcd]
    exact isDigitChar_digitChar d hlt

lemma digitsStr_ne_nil (n : Nat) : digitsStr n ≠ [] := by
  unfold digitsStr
  split
  · simp
  · rw [natDigits_eq]
    simp only [ne_eq, List.map_eq_nil_iff, List.reverse_eq_nil_iff]
    exact Nat.digits_ne_nil_iff_ne_zero.mpr (by assumption)

lemma digitsVal_append_digit (xs : List Char) (c : Char) :
    digitsVal (xs ++ [c]) = 10 * digitsVal xs + charDigit c := by
  simp [digitsVal, List.foldl_append]

lemma digitsVal_digitsStr (n : Nat) : digitsVal (digitsStr n) = n := by
  unfold digitsStr
  split
  · simp_all [digitsVal, charDigit]
  · rw [natDigits_eq]
    have key : ∀ L : List Nat, (∀ d ∈ L, d < 10) →
        digitsVal (L.reverse.map digitChar) = Nat.ofDigits 10 L := by
      intro L
      induction L with
      | nil => intro _; simp [digitsVal, Nat.ofDigits]
      | cons d L ih =>
        intro hall
        have hd : d < 10 := hall d (by simp)
        simp only [List.reverse_cons, List.map_append, List.map_cons,
          List.map_nil]
        rw [digitsVal_append_digit, ih (fun x hx => hall x (by simp [hx]))]
        rw [charDigit_digitChar d hd, Nat.ofDigits_cons]
        ring
    rw [key _ (fun d hd => Nat.digits_lt_base (by norm_num) hd)]
    exact Nat.ofDigits_digits 10 n

lemma parseNat_digitsStr (n : Nat) : parseNat (digitsStr n) = some n := by
  have hall : (digitsStr n).all isDigitChar = true := by
    rw [List.all_eq_true]
    exact digitsStr_all_digits n
  unfold parseNat
  rw [if_pos ⟨digitsStr_ne_nil n, hall⟩, digitsVal_digitsStr]

lemma parseInt_cons_neg (rest : List Char) :
    parseInt ('-' :: rest) = (parseNat rest).map (fun n => -(n : Int)) := by
  simp [parseInt]

lemma parseInt_cons_plain (c : Char) (rest : List Char)
    (h1 : c ≠ '-') (h2 : c ≠ '+') :
    parseInt (c :: rest) = (parseNat (c :: rest)).map (fun n => (n : Int)) := by
  simp [parseInt, h1, h2]

/-- `str(int)` parses back with `int()`. -/
lemma parseInt_display_integer (n : Int) :
    parseInt (display_integer n) = some n := by
  unfold display_integer
  by_cases hn : n < 0
  · rw [if_pos hn, parseInt_cons_neg, parseNat_digitsStr]
    show some (-(n.natAbs : Int)) = some n
    have h : -(n.natAbs : Int) = n := by omega
    rw [h]
  · rw [if_neg hn]
    have h0 : digitsStr n.toNat ≠ [] := digitsStr_ne_nil _
    have hhead : ∀ c ∈ digitsStr n.toNat, isDigitChar c = true :=
      digitsStr_all_digits _
    cases hds : digitsStr n.toNat with
    | nil => exact absurd hds h0
    | cons c rest =>
      have hc : isDigitChar c = true := by
        apply hhead
        rw [hds]
        simp
      have hcm : c ≠ '-' := by
        intro hcc
        rw [hcc] at hc
        exact absurd hc (by decide)
      have hcp : c ≠ '+' := by
        intro hcc
        rw [hcc] at hc
        exact absurd hc (by decide)
      rw [parseInt_cons_plain c rest hcm hcp, ← hds, parseNat_digitsStr]
      show some ((n.toNat : Nat) : Int) = some n
      have h : ((n.toNat : Nat) : Int) = n := by omega
      rw [h]

/-! ### Decimal notation -/

lemma digit_ne_of {c : Char} (h : isDigitChar c = true) (x : Char)
    (hx : isDigitChar x = false) : c ≠ x := by
  intro he
  subst he
  rw [h] at hx
  exact absurd hx (by decide)

lemma splitExpMark_no_mark (s : List Char)
    (h : ∀ c ∈ s, c ≠ 'E' ∧ c ≠ 'e') : splitExpMark s = (s, none) := by
  induction s with
  | nil => rfl
  | cons c rest ih =>
    have hc := h c (by simp)
    simp only [splitExpMark, hc.1, hc.2, or_self, if_false]
    rw [ih (fun x hx => h x (by simp [hx]))]

lemma splitExpMark_mark (A B : List Char)
    (h : ∀ c ∈ A, c ≠ 'E' ∧ c ≠ 'e') :
    splitExpMark (A ++ 'E' :: B) = (A, some B) := by
  induction A with
  | nil => simp [splitExpMark]
  | cons c rest ih =>
    have hc := h c (by simp)
    simp only [List.cons_append, splitExpMark, hc.1, hc.2, or_self, if_false]
    simp [List.append_eq, ih (fun x hx => h x (by simp [hx]))]

lemma contains_eq_false_of_forall_ne {l : List Char} {a : Char}
    (h : ∀ c ∈ l, c ≠ a) : l.contains a = false := by
  induction l with
  | nil => rfl
  | cons c rest ih =>
    have hc : (a == c) = false :=
      beq_eq_false_iff_ne.mpr (Ne.symm (h c (by simp)))
    simp only [List.contains_cons, hc, Bool.false_or]
    exact ih (fun x hx => h x (by simp [hx]))

lemma splitPoint_no_point (s : List Char) (h : ∀ c ∈ s, c ≠ '.') :
    splitPoint s = some (s, []) := by
  induction s with
  | nil => rfl
  | cons c rest ih =>
    have hc := h c (by simp)
    simp only [splitPoint, hc, if_false]
    rw [ih (fun x hx => h x (by simp [hx]))]
    rfl

lemma splitPoint_point (A B : List Char) (hA : ∀ c ∈ A, c ≠ '.')
    (hB : ∀ c ∈ B, c ≠ '.') :
    splitPoint (A ++ '.' :: B) = some (A, B) := by
  induction A with
  | nil =>
    have hcont : B.contains '.' = false := contains_eq_false_of_forall_ne hB
    simp only [List.nil_append, splitPoint, if_pos rfl, hcont,
      Bool.false_eq_true, if_false]
    simp
  | cons c rest ih =>
    have hc := hA c (by simp)
    simp only [List.cons_append, splitPoint, hc, if_false]
    simp [List.append_eq, ih (fun x hx => hA x (by simp [hx]))]

lemma digitsVal_zero_cons (ys : List Char) :
    digitsVal ('0' :: ys) = digitsVal ys := rfl

lemma digitsVal_zero_prefix (k : Nat) (xs : List Char) :
    digitsVal (List.replicate k '0' ++ xs) = digitsVal xs := by
  induction k with
  | zero => simp
  | succ m ih =>
    rw [List.replicate_succ, List.cons_append, digitsVal_zero_cons, ih]

lemma parseNat_none_of_mem {s : List Char} {x : Char} (hx : x ∈ s)
    (h : isDigitChar x = false) : parseNat s = none := by
  have hall : s.all isDigitChar = false := by
    rw [List.all_eq_false]
    exact ⟨x, hx, by simp [h]⟩
  unfold parseNat
  rw [if_neg]
  intro hcon
  rw [hall] at hcon
  exact absurd hcon.2 (by simp)

lemma parseDecExp_signed (n : Int) :
    parseDecExp ((if n < 0 then '-' else '+') :: digitsStr n.natAbs) =
      some n := by
  by_cases hn : n < 0
  · rw [if_pos hn]
    simp [parseDecExp, parseNat_digitsStr, -Int.natCast_natAbs]
    omega
  · rw [if_neg hn]
    have h1 : ('+' : Char) ≠ '-' := by decide
    simp [parseDecExp, h1, parseNat_digitsStr, -Int.natCast_natAbs]
    omega

lemma digit_ne_em {c : Char} (h : isDigitChar c = true) :
    c ≠ 'E' ∧ c ≠ 'e' :=
  ⟨digit_ne_of h 'E' (by decide), digit_ne_of h 'e' (by decide)⟩

lemma decToSciBody_shape (d : Dec) :
    ∃ c rest, decToSciBody d = c :: rest ∧ isDigitChar c = true := by
  obtain ⟨c0, ds0, hds, hc0⟩ : ∃ c0 ds0, digitsStr d.coeff = c0 :: ds0 ∧
      isDigitChar c0 = true := by
    cases hds : digitsStr d.coeff with
    | nil => exact absurd hds (digitsStr_ne_nil _)
    | cons c0 ds0 =>
      refine ⟨c0, ds0, rfl, ?_⟩
      have := digitsStr_all_digits d.coeff c0 (by rw [hds]; simp)
      exact this
  unfold decToSciBody
  by_cases h1 : d.exp ≤ 0 ∧ -6 ≤ decAdjusted d
  · rw [if_pos h1]
    by_cases h2 : d.exp = 0
    · rw [if_pos h2, hds]
      exact ⟨c0, ds0, rfl, hc0⟩
    · rw [if_neg h2]
      by_cases h3 : 0 ≤ decAdjusted d
      · rw [if_pos h3, hds, List.take_succ_cons]
        exact ⟨c0, _, rfl, hc0⟩
      · rw [if_neg h3]
        exact ⟨'0', _, rfl, by decide⟩
  · rw [if_neg h1, hds]
    exact ⟨c0, _, rfl, hc0⟩

/-- The unsigned to-sci-string of a decimal parses back to the same
coefficient and exponent (under whatever sign the caller supplies). -/
lemma parseDecAfterSign_body (sign : Bool) (d : Dec) :
    parseDecAfterSign sign (decToSciBody d) =
      some ⟨sign, d.coeff, d.exp⟩ := by
  have hdig : ∀ c ∈ digitsStr d.coeff, isDigitChar c = true :=
    digitsStr_all_digits _
  have hne : digitsStr d.coeff ≠ [] := digitsStr_ne_nil _
  have hall : (digitsStr d.coeff).all isDigitChar = true :=
    List.all_eq_true.mpr hdig
  have hadj : decAdjusted d = d.exp + (digitsStr d.coeff).length - 1 := rfl
  by_cases h1 : d.exp ≤ 0 ∧ -6 ≤ decAdjusted d
  · by_cases h2 : d.exp = 0
    · -- plain digits, no point, no exponent
      have hbody : decToSciBody d = digitsStr d.coeff := by
        unfold decToSciBody
        rw [if_pos h1, if_pos h2]
      have hsplitE : splitExpMark (digitsStr d.coeff) =
          (digitsStr d.coeff, none) :=
        splitExpMark_no_mark _ (fun c hc => digit_ne_em (hdig c hc))
      have hsplitP : splitPoint (digitsStr d.coeff) =
          some (digitsStr d.coeff, []) :=
        splitPoint_no_point _
          (fun c hc => digit_ne_of (hdig c hc) '.' (by decide))
      rw [hbody]
      simp [parseDecAfterSign, hsplitE, hsplitP, hne, hall,
        digitsVal_digitsStr, h2]
    · have hexplt : d.exp < 0 := lt_of_le_of_ne h1.1 h2
      by_cases h3 : 0 ≤ decAdjusted d
      · -- point inserted inside the digit string
        have hbody : decToSciBody d =
            (digitsStr d.coeff).take ((decAdjusted d).toNat + 1) ++
              '.' :: (digitsStr d.coeff).drop ((decAdjusted d).toNat + 1) := by
          unfold decToSciBody
          rw [if_pos h1, if_neg h2, if_pos h3]
        have htake : ∀ c ∈ (digitsStr d.coeff).take ((decAdjusted d).toNat + 1),
            isDigitChar c = true :=
          fun c hc => hdig c (List.take_subset _ _ hc)
        have hdrop : ∀ c ∈ (digitsStr d.coeff).drop ((decAdjusted d).toNat + 1),
            isDigitChar c = true :=
          fun c hc => hdig c (List.drop_subset _ _ hc)
        have hsplitE : splitExpMark (decToSciBody d) =
            (decToSciBody d, none) := by
          apply splitExpMark_no_mark
          intro c hc
          rw [hbody] at hc
          rcases List.mem_append.mp hc with hc | hc
          · exact digit_ne_em (htake c hc)
          · rcases List.mem_cons.mp hc with hc | hc
            · subst hc; exact ⟨by decide, by decide⟩
            · exact digit_ne_em (hdrop c hc)
        have hsplitP : splitPoint (decToSciBody d) =
            some ((digitsStr d.coeff).take ((decAdjusted d).toNat + 1),
              (digitsStr d.coeff).drop ((decAdjusted d).toNat + 1)) := by
          rw [hbody]
          exact splitPoint_point _ _
            (fun c hc => digit_ne_of (htake c hc) '.' (by decide))
            (fun c hc => digit_ne_of (hdrop c hc) '.' (by decide))
        have hTD : (digitsStr d.coeff).take ((decAdjusted d).toNat + 1) ++
            (digitsStr d.coeff).drop ((decAdjusted d).toNat + 1) =
            digitsStr d.coeff := List.take_append_drop _ _
        simp only [parseDecAfterSign, hsplitE, hsplitP, hTD]
        simp [hne, hall, digitsVal_digitsStr]
        rw [hadj] at h3 ⊢
        omega
      · -- leading "0." and padding zeros
        have hbody : decToSciBody d =
            '0' :: '.' :: List.replicate (-(decAdjusted d) - 1).toNat '0' ++
              digitsStr d.coeff := by
          unfold decToSciBody
          rw [if_pos h1, if_neg h2, if_neg h3]
        have hrep : ∀ c ∈ List.replicate (-(decAdjusted d) - 1).toNat '0' ++
            digitsStr d.coeff, isDigitChar c = true := by
          intro c hc
          rcases List.mem_append.mp hc with hc | hc
          · rw [List.eq_of_mem_replicate hc]; decide
          · exact hdig c hc
        have hsplitE : splitExpMark (decToSciBody d) =
            (decToSciBody d, none) := by
          apply splitExpMark_no_mark
          intro c hc
          rw [hbody] at hc
          rcases List.mem_cons.mp hc with hc | hc
          · subst hc; exact ⟨by decide, by decide⟩
          rcases List.mem_cons.mp hc with hc | hc
          · subst hc; exact ⟨by decide, by decide⟩
          exact digit_ne_em (hrep c hc)
        have hsplitP : splitPoint (decToSciBody d) =
            some (['0'], List.replicate (-(decAdjusted d) - 1).toNat '0' ++
              digitsStr d.coeff) := by
          rw [hbody]
          have := splitPoint_point ['0']
            (List.replicate (-(decAdjusted d) - 1).toNat '0' ++
              digitsStr d.coeff)
            (by intro c hc; simp at hc; subst hc; decide)
            (fun c hc => digit_ne_of (hrep c hc) '.' (by decide))
          simpa using this
        simp only [parseDecAfterSign, hsplitE, hsplitP]
        simp [List.all_eq_true, hdig]
        refine ⟨⟨by decide, Or.inr (by decide), hdig⟩, ?_, ?_⟩
        · rw [digitsVal_zero_cons, digitsVal_zero_prefix,
            digitsVal_digitsStr]
        · rw [hadj] at h3 ⊢
          omega
  · -- exponential notation
    obtain ⟨c0, ds0, hds⟩ : ∃ c0 ds0, digitsStr d.coeff = c0 :: ds0 := by
      cases hds : digitsStr d.coeff with
      | nil => exact absurd hds hne
      | cons c0 ds0 => exact ⟨c0, ds0, rfl⟩
    have hc0 : isDigitChar c0 = true := hdig c0 (by rw [hds]; simp)
    have hds0 : ∀ c ∈ ds0, isDigitChar c = true :=
      fun c hc => hdig c (by rw [hds]; simp [hc])
    have hbody : decToSciBody d =
        c0 :: (if ds0 = [] then [] else '.' :: ds0) ++
          'E' :: (if decAdjusted d < 0 then '-' else '+') ::
            digitsStr (decAdjusted d).natAbs := by
      unfold decToSciBody
      rw [if_neg h1, hds]
    have hpexp : parseDecExp ((if decAdjusted d < 0 then '-' else '+') ::
        digitsStr (decAdjusted d).natAbs) = some (decAdjusted d) :=
      parseDecExp_signed _
    by_cases hnil : ds0 = []
    · have hbody2 : decToSciBody d =
          [c0] ++ 'E' :: (if decAdjusted d < 0 then '-' else '+') ::
            digitsStr (decAdjusted d).natAbs := by
        rw [hbody, if_pos hnil]
      have hsplitE : splitExpMark (decToSciBody d) =
          ([c0], some ((if decAdjusted d < 0 then '-' else '+') ::
            digitsStr (decAdjusted d).natAbs)) := by
        rw [hbody2]
        exact splitExpMark_mark _ _
          (by intro c hc; simp at hc; subst hc; exact digit_ne_em hc0)
      have hsplitP : splitPoint [c0] = some ([c0], []) :=
        splitPoint_no_point _
          (by intro c hc; simp at hc; subst hc
              exact digit_ne_of hc0 '.' (by decide))
      have hval : digitsVal [c0] = d.coeff := by
        have : digitsStr d.coeff = [c0] := by rw [hds, hnil]
        rw [← this, digitsVal_digitsStr]
      have hlen : (digitsStr d.coeff).length = 1 := by
        rw [hds, hnil]
        rfl
      simp only [parseDecAfterSign, hsplitE, hsplitP]
      simp [hc0, hpexp, hval]
      rw [hadj, hlen]
      omega
    · have hbody2 : decToSciBody d =
          (c0 :: '.' :: ds0) ++ 'E' ::
            (if decAdjusted d < 0 then '-' else '+') ::
              digitsStr (decAdjusted d).natAbs := by
        rw [hbody, if_neg hnil]
      have hsplitE : splitExpMark (decToSciBody d) =
          (c0 :: '.' :: ds0,
            some ((if decAdjusted d < 0 then '-' else '+') ::
              digitsStr (decAdjusted d).natAbs)) := by
        rw [hbody2]
        apply splitExpMark_mark
        intro c hc
        rcases List.mem_cons.mp hc with hc | hc
        · subst hc; exact digit_ne_em hc0
        rcases List.mem_cons.mp hc with hc | hc
        · subst hc; exact ⟨by decide, by decide⟩
        exact digit_ne_em (hds0 c hc)
      have hsplitP : splitPoint (c0 :: '.' :: ds0) = some ([c0], ds0) := by
        have := splitPoint_point [c0] ds0
          (by intro c hc; simp at hc; subst hc
              exact digit_ne_of hc0 '.' (by decide))
          (fun c hc => digit_ne_of (hds0 c hc) '.' (by decide))
        simpa using this
      have hval : digitsVal (c0 :: ds0) = d.coeff := by
        rw [← hds, digitsVal_digitsStr]
      simp only [parseDecAfterSign, hsplitE, hsplitP]
      simp [hc0, hds0, List.all_eq_true, hpexp, hval]
      refine ⟨hds0, ?_⟩
      rw [hadj, hds]
      simp only [List.length_cons]
      omega

/-- `str(Decimal)` parses back with `Decimal()` to the same value. -/
lemma parseDec_decToSci (d : Dec) : parseDec (decToSci d) = some d := by
  obtain ⟨c, rest, hshape, hc⟩ := decToSciBody_shape d
  unfold decToSci
  by_cases hs : d.sign = true
  · rw [if_pos hs]
    have h2 : parseDec ('-' :: decToSciBody d) =
        parseDecAfterSign true (decToSciBody d) := by
      simp [parseDec]
    rw [h2, parseDecAfterSign_body, ← hs]
  · rw [if_neg hs]
    have hsf : d.sign = false := by
      cases hd : d.sign
      · rfl
      · exact absurd hd hs
    have hcm : c ≠ '-' := digit_ne_of hc '-' (by decide)
    have hcp : c ≠ '+' := digit_ne_of hc '+' (by decide)
    have h2 : parseDec (decToSciBody d) =
        parseDecAfterSign false (decToSciBody d) := by
      rw [hshape]
      simp [parseDec, hcm, hcp]
    rw [h2, parseDecAfterSign_body, ← hsf]

lemma decToSciBody_nondigit (d : Dec) (h : d.exp ≠ 0) :
    ∃ x ∈ decToSciBody d, isDigitChar x = false := by
  unfold decToSciBody
  by_cases h1 : d.exp ≤ 0 ∧ -6 ≤ decAdjusted d
  · rw [if_pos h1, if_neg h]
    by_cases h3 : 0 ≤ decAdjusted d
    · rw [if_pos h3]
      exact ⟨'.', by simp, by decide⟩
    · rw [if_neg h3]
      exact ⟨'.', by simp, by decide⟩
  · rw [if_neg h1]
    obtain ⟨c0, ds0, hds⟩ : ∃ c0 ds0, digitsStr d.coeff = c0 :: ds0 := by
      cases hds : digitsStr d.coeff with
      | nil => exact absurd hds (digitsStr_ne_nil _)
      | cons c0 ds0 => exact ⟨c0, ds0, rfl⟩
    rw [hds]
    exact ⟨'E', by simp, by decide⟩

/-- When the exponent is nonzero, the printed decimal is not an integer
literal, so the reader's `int()` attempt fails. -/
lemma parseInt_decToSci_none (d : Dec) (h : d.exp ≠ 0) :
    parseInt (decToSci d) = none := by
  obtain ⟨x, hx, hxd⟩ := decToSciBody_nondigit d h
  obtain ⟨c, rest, hshape, hc⟩ := decToSciBody_shape d
  have hnat : parseNat (decToSciBody d) = none := parseNat_none_of_mem hx hxd
  unfold decToSci
  by_cases hs : d.sign = true
  · rw [if_pos hs, parseInt_cons_neg, hnat]
    rfl
  · rw [if_neg hs, hshape,
      parseInt_cons_plain c rest (digit_ne_of hc '-' (by decide))
        (digit_ne_of hc '+' (by decide)),
      ← hshape, hnat]
    rfl

/-- When the exponent is zero, the printed decimal is a plain integer
literal, so the reader's `int()` attempt succeeds with the signed
coefficient. -/
lemma parseInt_decToSci_exp0 (d : Dec) (h : d.exp = 0) :
    parseInt (decToSci d) =
      some (if d.sign then -(d.coeff : Int) else (d.coeff : Int)) := by
  have hne := digitsStr_ne_nil d.coeff
  have hlen : 0 < (digitsStr d.coeff).length := List.length_pos.mpr hne
  have hbody : decToSciBody d = digitsStr d.coeff := by
    unfold decToSciBody
    rw [if_pos ⟨le_of_eq h, by unfold decAdjusted; omega⟩, if_pos h]
  unfold decToSci
  by_cases hs : d.sign = true
  · rw [if_pos hs, hbody, parseInt_cons_neg, parseNat_digitsStr, hs]
    simp
  · have hsf : d.sign = false := by
      cases hd : d.sign
      · rfl
      · exact absurd hd hs
    rw [if_neg hs, hbody]
    obtain ⟨c0, ds0, hds⟩ : ∃ c0 ds0, digitsStr d.coeff = c0 :: ds0 := by
      cases hds : digitsStr d.coeff with
      | nil => exact absurd hds hne
      | cons c0 ds0 => exact ⟨c0, ds0, rfl⟩
    have hc0 : isDigitChar c0 = true :=
      digitsStr_all_digits d.coeff c0 (by rw [hds]; simp)
    rw [hds, parseInt_cons_plain c0 ds0 (digit_ne_of hc0 '-' (by decide))
        (digit_ne_of hc0 '+' (by decide)),
      ← hds, parseNat_digitsStr, hsf]
    simp

/-! ### Tokenizer lemmas -/

lemma atomStartOk_facts {c : Char} (h : atomStartOk c = true) :
    c ≠ '"' ∧ c ≠ '(' ∧ c ≠ ')' ∧ c ≠ ';' ∧ c ≠ ' ' ∧ c ≠ '\t' ∧
      c ≠ '\n' ∧ c ≠ '\'' ∧ c ≠ '`' ∧ c ≠ ',' := by
  simp [atomStartOk, delimChar] at h
  tauto

lemma tokenize_nonstring_atom_eq (A r : List Char)
    (hA : ∀ c ∈ A, delimChar c = false) (hr : headDelim r = true) :
    tokenize_nonstring_atom (A ++ r) = (A, r) := by
  induction A with
  | nil =>
    cases r with
    | nil => rfl
    | cons c rest =>
      have hc : delimChar c = true := hr
      simp only [delimChar, decide_eq_true_eq] at hc
      simp [tokenize_nonstring_atom, hc]
  | cons c A2 ih =>
    have hc : delimChar c = false := hA c (by simp)
    simp only [delimChar, decide_eq_false_iff_not] at hc
    simp only [List.cons_append, tokenize_nonstring_atom, hc, if_false]
    simp [List.append_eq, ih (fun x hx => hA x (by simp [hx]))]

lemma read_token_cons (c : Char) (rest : List Char) :
    read_token (c :: rest) =
      (if c = ';' then read_token (tokenize_comment rest)
       else if c = '(' ∨ c = ')' then .ok (some ⟨[c]⟩, rest)
       else if c = '\'' ∨ c = '`' then .ok (some ⟨[c]⟩, rest)
       else if c = ',' then
         match rest with
         | '@' :: rest2 => .ok (some ",@", rest2)
         | _ => .ok (some ",", rest)
       else if c = ' ' ∨ c = '\t' ∨ c = '\n' then read_token rest
       else if c = '"' then
         match tokenize_string_body rest with
         | .error e => .error e
         | .ok (content, r) => .ok (some ⟨'"' :: (content ++ ['"'])⟩, r)
       else
         let (a, r) := tokenize_nonstring_atom (c :: rest)
         .ok (some ⟨a⟩, r)) := by
  conv_lhs => rw [read_token.eq_def]

lemma tokenize_string_body_cons (c : Char) (rest : List Char) :
    tokenize_string_body (c :: rest) =
      (if c = '\\' then
        (match rest with
         | [] => .error .tokenError
         | c2 :: rest2 =>
           if c2 = '"' ∨ c2 = '\\' then
             (tokenize_string_body rest2).map (fun (a, r) => ('\\' :: c2 :: a, r))
           else .error .tokenError)
      else if c = '"' then .ok ([], rest)
      else (tokenize_string_body rest).map (fun (a, r) => (c :: a, r))) := by
  conv_lhs => rw [tokenize_string_body.eq_def]

lemma unescapeChars_cons (c : Char) (rest : List Char) :
    unescapeChars (c :: rest) =
      (if c = '\\' then
        (match rest with
         | [] => ['\\']
         | c2 :: rest2 =>
           if c2 = '"' ∨ c2 = '\\' then c2 :: unescapeChars rest2
           else '\\' :: unescapeChars (c2 :: rest2))
      else c :: unescapeChars rest) := by
  conv_lhs => rw [unescapeChars.eq_def]

lemma read_token_atom (c0 : Char) (A r : List Char)
    (h0 : atomStartOk c0 = true)
    (hA : ∀ c ∈ A, delimChar c = false)
    (hr : headDelim r = true) :
    read_token ((c0 :: A) ++ r) = .ok (some ⟨c0 :: A⟩, r) := by
  obtain ⟨h1, h2, h3, h4, h5, h6, h7, h8, h9, h10⟩ := atomStartOk_facts h0
  have hA2 : ∀ c ∈ c0 :: A, delimChar c = false := by
    intro c hc
    rcases List.mem_cons.mp hc with hc | hc
    · subst hc
      simp [delimChar, h1, h2, h3, h4, h5, h6, h7]
    · exact hA c hc
  have htok := tokenize_nonstring_atom_eq (c0 :: A) r hA2 hr
  rw [List.cons_append] at htok ⊢
  rw [read_token_cons]
  simp [h1, h2, h3, h4, h5, h6, h7, h8, h9, h10, htok]

lemma read_token_space (s : List Char) :
    read_token (' ' :: s) = read_token s := by
  rw [read_token_cons]
  simp

lemma read_token_open (s : List Char) :
    read_token ('(' :: s) = .ok (some "(", s) := by
  rw [read_token_cons]
  simp

lemma read_token_close (s : List Char) :
    read_token (')' :: s) = .ok (some ")", s) := by
  rw [read_token_cons]
  simp

lemma read_token_quote_mark (s : List Char) :
    read_token ('\'' :: s) = .ok (some "'", s) := by
  rw [read_token_cons]
  simp

lemma read_token_backquote (s : List Char) :
    read_token ('`' :: s) = .ok (some "`", s) := by
  rw [read_token_cons]
  simp

lemma read_token_comma_at (s : List Char) :
    read_token (',' :: '@' :: s) = .ok (some ",@", s) := by
  rw [read_token_cons]
  simp

lemma read_token_comma (c : Char) (s : List Char) (h : c ≠ '@') :
    read_token (',' :: c :: s) = .ok (some ",", c :: s) := by
  rw [read_token_cons]
  rw [if_neg (by decide), if_neg (by decide), if_neg (by decide), if_pos rfl]
  split
  · next heq =>
    rw [List.cons.injEq] at heq
    exact absurd heq.1 h
  · rfl

lemma escapeChars_cons (c : Char) (rest : List Char) :
    escapeChars (c :: rest) =
      (if c = '\\' then '\\' :: '\\' :: escapeChars rest
       else if c = '"' then '\\' :: '"' :: escapeChars rest
       else c :: escapeChars rest) := by
  conv_lhs => rw [escapeChars.eq_def]

lemma tokenize_string_body_escape (s r : List Char) :
    tokenize_string_body (escapeChars s ++ '"' :: r) =
      .ok (escapeChars s, r) := by
  induction s with
  | nil =>
    simp only [escapeChars, List.nil_append]
    rw [tokenize_string_body_cons]
    simp
  | cons c s2 ih =>
    rw [escapeChars_cons]
    by_cases hbs : c = '\\'
    · subst hbs
      rw [if_pos rfl]
      simp only [List.cons_append]
      rw [tokenize_string_body_cons]
      simp [ih]
    · by_cases hq : c = '"'
      · subst hq
        rw [if_neg (by decide), if_pos rfl]
        simp only [List.cons_append]
        rw [tokenize_string_body_cons]
        simp [ih]
      · rw [if_neg hbs, if_neg hq]
        simp only [List.cons_append]
        rw [tokenize_string_body_cons]
        simp [hbs, hq, ih]

lemma unescapeChars_escapeChars (s : List Char) :
    unescapeChars (escapeChars s) = s := by
  induction s with
  | nil => rfl
  | cons c s2 ih =>
    rw [escapeChars_cons]
    by_cases hbs : c = '\\'
    · subst hbs
      rw [if_pos rfl, unescapeChars_cons]
      simp [ih]
    · by_cases hq : c = '"'
      · subst hq
        rw [if_neg (by decide), if_pos rfl, unescapeChars_cons]
        simp [ih]
      · rw [if_neg hbs, if_neg hq, unescapeChars_cons]
        simp [hbs, ih]

/-! ### Display evaluation lemmas

`display` and its companions are well-founded recursive, so they do not
reduce definitionally; these equations restate one unfolding each. -/

lemma display_nil_eq : display .nil = .ok display_nil := by
  rw [display.eq_def]
  rfl

lemma display_boolean_eq (b : Bool) :
    display (.boolean b) = .ok (display_boolean b) := by
  rw [display.eq_def]
  rfl

lemma display_integer_eq (n : Int) :
    display (.integer n) = .ok (display_integer n) := by
  rw [display.eq_def]
  rfl

lemma display_decimal_eq (d : Dec) :
    display (.decimal d) = .ok (decToSci d) := by
  rw [display.eq_def]
  rfl

lemma display_string_eq (s : String) :
    display (.string s) = .ok (display_string s) := by
  rw [display.eq_def]
  rfl

lemma display_symbol_eq (s : String) :
    display (.symbol s) = .ok s.data := by
  rw [display.eq_def]
  rfl

lemma display_match_cons (h t : Value) :
    display (.cons h t) =
      (if quote_p (.cons h t) then display_quote (.cons h t)
       else display_cons (.cons h t)) := by
  rw [display.eq_def]

lemma display_quote_sym (qs : String) (form : Value) :
    display_quote (.cons (.symbol qs) (.cons form .nil)) =
      (if qs = "quote" then (display form).map ('\'' :: ·)
       else if qs = "quasiquote" then (display form).map ('`' :: ·)
       else if qs = "unquote" then (display form).map (',' :: ·)
       else if qs = "unquote-splicing" then (display form).map (',' :: '@' :: ·)
       else display_cons (.cons (.symbol qs) (.cons form .nil))) := by
  rw [display_quote.eq_def]

lemma display_cons_def (v : Value) :
    display_cons v = (displayParts v).map
      (fun parts => '(' :: List.intercalate [' '] parts ++ [')']) := by
  rw [display_cons.eq_def]

lemma displayParts_cons (h t : Value) :
    displayParts (.cons h t) =
      ((display h) >>= fun s =>
        match t with
        | .cons h2 t2 =>
          (displayParts (.cons h2 t2)) >>= fun rest => pure (s :: rest)
        | .nil => pure [s]
        | t2 => (display t2) >>= fun st => pure [s, ['.'], st]) := by
  rw [displayParts.eq_def]

lemma dChars_of_display {v : Value} {s : List Char} (h : display v = .ok s) :
    dChars v = s := by
  unfold dChars
  rw [h]

lemma vsize_pos (v : Value) : 1 ≤ vsize v := by
  cases v <;> simp [vsize] <;> omega

lemma intercalate_single (x : List Char) :
    List.intercalate [' '] [x] = x := by
  simp [List.intercalate]

lemma intercalate_cons_ne (x : List Char) (ys : List (List Char))
    (h : ys ≠ []) :
    List.intercalate [' '] (x :: ys) =
      x ++ ' ' :: List.intercalate [' '] ys := by
  cases ys with
  | nil => exact absurd rfl h
  | cons y ys2 => simp [List.intercalate, List.intersperse]

lemma WFValue_cons (h t : Value) :
    WFValue (.cons h t) =
      (if quote_p (.cons h t) then
        (match h, t with
         | .symbol q, .cons x .nil =>
           WFValue x && !(q = "unquote" && atSymbol x)
         | _, _ => false)
       else WFValue h && spineWF t) := by
  rw [WFValue.eq_def]

lemma spineWF_cons (h t : Value) :
    spineWF (.cons h t) = (WFValue h && spineWF t) := by
  rw [spineWF.eq_def]

/-- On well-formed values `display` succeeds, and the display of a
non-quote pair is the head's display followed by the spine text. -/
lemma display_ok_aux :
    ∀ n : Nat,
      (∀ v : Value, vsize v ≤ n → WFValue v = true →
        ∃ s, display v = .ok s) ∧
      (∀ t : Value, vsize t ≤ n → spineWF t = true →
        ∀ h : Value, display h = .ok (dChars h) →
          ∃ ps, displayParts (.cons h t) = .ok ps ∧ ps ≠ [] ∧
            List.intercalate [' '] ps ++ [')'] = dChars h ++ spineChars t) := by
  intro n
  induction n using Nat.strong_induction_on with
  | _ n ih =>
  have P1 : ∀ v : Value, vsize v ≤ n → WFValue v = true →
      ∃ s, display v = .ok s := by
    intro v hv hwf
    match v with
    | .nil => exact ⟨_, display_nil_eq⟩
    | .boolean b => exact ⟨_, display_boolean_eq b⟩
    | .integer k => exact ⟨_, display_integer_eq k⟩
    | .decimal d => exact ⟨_, display_decimal_eq d⟩
    | .string s => exact ⟨_, display_string_eq s⟩
    | .symbol s => exact ⟨_, display_symbol_eq s⟩
    | .procedure p => rw [WFValue.eq_def] at hwf; simp at hwf
    | .builtin name => rw [WFValue.eq_def] at hwf; simp at hwf
    | .vector l => rw [WFValue.eq_def] at hwf; simp at hwf
    | .pfloat => rw [WFValue.eq_def] at hwf; simp at hwf
    | .cons h t =>
      rw [WFValue_cons] at hwf
      by_cases hq : quote_p (.cons h t) = true
      · rw [if_pos hq] at hwf
        cases h with
        | symbol q =>
          cases t with
          | cons x t2 =>
            cases t2 with
            | nil =>
              simp only [Bool.and_eq_true] at hwf
              have hwx : WFValue x = true := hwf.1
              have hsz : vsize (Value.cons (.symbol q) (.cons x .nil)) =
                  vsize x + 4 := by
                simp [vsize]
                omega
              have hx : vsize x < n := by omega
              obtain ⟨sx, hsx⟩ := (ih (vsize x) hx).1 x le_rfl hwx
              have hq2 : q = "quote" ∨ q = "quasiquote" ∨ q = "unquote" ∨
                  q = "unquote-splicing" := by
                simpa [quote_p] using hq
              rw [display_match_cons, if_pos hq, display_quote_sym]
              rcases hq2 with hq2 | hq2 | hq2 | hq2
              all_goals subst hq2
              · exact ⟨_, by rw [if_pos rfl, hsx]; rfl⟩
              · exact ⟨_, by rw [if_neg (by decide), if_pos rfl, hsx]; rfl⟩
              · exact ⟨_, by
                  rw [if_neg (by decide), if_neg (by decide), if_pos rfl, hsx]
                  rfl⟩
              · exact ⟨_, by
                  rw [if_neg (by decide), if_neg (by decide),
                    if_neg (by decide), if_pos rfl, hsx]
                  rfl⟩
            | cons a b => simp at hwf
            | boolean a => simp at hwf
            | integer a => simp at hwf
            | decimal a => simp at hwf
            | string a => simp at hwf
            | symbol a => simp at hwf
            | procedure a => simp at hwf
            | builtin a => simp at hwf
            | vector a => simp at hwf
            | pfloat => simp at hwf
          | nil => simp at hwf
          | boolean a => simp at hwf
          | integer a => simp at hwf
          | decimal a => simp at hwf
          | string a => simp at hwf
          | symbol a => simp at hwf
          | procedure a => simp at hwf
          | builtin a => simp at hwf
          | vector a => simp at hwf
          | pfloat => simp at hwf
        | nil => simp [quote_p] at hq
        | boolean a => simp [quote_p] at hq
        | integer a => simp [quote_p] at hq
        | decimal a => simp [quote_p] at hq
        | string a => simp [quote_p] at hq
        | cons a b => simp [quote_p] at hq
        | procedure a => simp [quote_p] at hq
        | builtin a => simp [quote_p] at hq
        | vector a => simp [quote_p] at hq
        | pfloat => simp [quote_p] at hq
      · rw [if_neg hq] at hwf
        simp only [Bool.and_eq_true] at hwf
        have hwh : WFValue h = true := hwf.1
        have hst : spineWF t = true := hwf.2
        have hsz : vsize (Value.cons h t) = 1 + vsize h + vsize t := by
          simp [vsize]
        have hhn : vsize h < n := by
          have := vsize_pos t
          omega
        have htn : vsize t < n := by
          have := vsize_pos h
          omega
        obtain ⟨sh, hsh⟩ := (ih (vsize h) hhn).1 h le_rfl hwh
        have hsh2 : display h = .ok (dChars h) := by
          rw [hsh, dChars_of_display hsh]
        obtain ⟨ps, hps, hpne, hpeq⟩ :=
          (ih (vsize t) htn).2 t le_rfl hst h hsh2
        refine ⟨'(' :: List.intercalate [' '] ps ++ [')'], ?_⟩
        rw [display_match_cons, if_neg hq, display_cons_def, hps]
        rfl
  refine ⟨P1, ?_⟩
  intro t ht hst h hdh
  match t with
  | .nil =>
    refine ⟨[dChars h], ?_, by simp, ?_⟩
    · rw [displayParts_cons, hdh]
      rfl
    · rw [intercalate_single]
      rfl
  | .cons h2 t2 =>
    rw [spineWF_cons] at hst
    simp only [Bool.and_eq_true] at hst
    have hsz : vsize (Value.cons h2 t2) = 1 + vsize h2 + vsize t2 := by
      simp [vsize]
    have hh2 : vsize h2 ≤ n := by
      have := vsize_pos t2
      omega
    have ht2 : vsize t2 < n := by
      have := vsize_pos h2
      omega
    obtain ⟨s2, hs2⟩ := P1 h2 hh2 hst.1
    have hs2d : display h2 = .ok (dChars h2) := by
      rw [hs2, dChars_of_display hs2]
    obtain ⟨ps2, hps2, hp2ne, hp2eq⟩ :=
      (ih (vsize t2) ht2).2 t2 le_rfl hst.2 h2 hs2d
    refine ⟨dChars h :: ps2, ?_, by simp, ?_⟩
    · rw [displayParts_cons, hdh]
      simp only [except_bindOp_ok]
      rw [hps2]
      rfl
    · rw [intercalate_cons_ne _ _ hp2ne]
      show (dChars h ++ ' ' :: List.intercalate [' '] ps2) ++ [')'] = _
      rw [List.append_assoc]
      simp only [List.cons_append]
      rw [hp2eq]
      rfl
  | .boolean b =>
    rw [spineWF.eq_def] at hst
    obtain ⟨sw, hsw⟩ := P1 (Value.boolean b) ht hst
    have hswd : display (Value.boolean b) = .ok (dChars (Value.boolean b)) := by
      rw [hsw, dChars_of_display hsw]
    refine ⟨[dChars h, ['.'], dChars (Value.boolean b)], ?_, by simp, ?_⟩
    · rw [displayParts_cons, hdh]
      simp only [except_bindOp_ok]
      rw [hswd]
      rfl
    · simp [List.intercalate, List.intersperse, spineChars]
  | .integer k =>
    rw [spineWF.eq_def] at hst
    obtain ⟨sw, hsw⟩ := P1 (Value.integer k) ht hst
    have hswd : display (Value.integer k) = .ok (dChars (Value.integer k)) := by
      rw [hsw, dChars_of_display hsw]
    refine ⟨[dChars h, ['.'], dChars (Value.integer k)], ?_, by simp, ?_⟩
    · rw [displayParts_cons, hdh]
      simp only [except_bindOp_ok]
      rw [hswd]
      rfl
    · simp [List.intercalate, List.intersperse, spineChars]
  | .decimal d =>
    rw [spineWF.eq_def] at hst
    obtain ⟨sw, hsw⟩ := P1 (Value.decimal d) ht hst
    have hswd : display (Value.decimal d) = .ok (dChars (Value.decimal d)) := by
      rw [hsw, dChars_of_display hsw]
    refine ⟨[dChars h, ['.'], dChars (Value.decimal d)], ?_, by simp, ?_⟩
    · rw [displayParts_cons, hdh]
      simp only [except_bindOp_ok]
      rw [hswd]
      rfl
    · simp [List.intercalate, List.intersperse, spineChars]
  | .string s =>
    rw [spineWF.eq_def] at hst
    obtain ⟨sw, hsw⟩ := P1 (Value.string s) ht hst
    have hswd : display (Value.string s) = .ok (dChars (Value.string s)) := by
      rw [hsw, dChars_of_display hsw]
    refine ⟨[dChars h, ['.'], dChars (Value.string s)], ?_, by simp, ?_⟩
    · rw [displayParts_cons, hdh]
      simp only [except_bindOp_ok]
      rw [hswd]
      rfl
    · simp [List.intercalate, List.intersperse, spineChars]
  | .symbol s =>
    rw [spineWF.eq_def] at hst
    obtain ⟨sw, hsw⟩ := P1 (Value.symbol s) ht hst
    have hswd : display (Value.symbol s) = .ok (dChars (Value.symbol s)) := by
      rw [hsw, dChars_of_display hsw]
    refine ⟨[dChars h, ['.'], dChars (Value.symbol s)], ?_, by simp, ?_⟩
    · rw [displayParts_cons, hdh]
      simp only [except_bindOp_ok]
      rw [hswd]
      rfl
    · simp [List.intercalate, List.intersperse, spineChars]
  | .procedure p => simp [spineWF.eq_def, WFValue.eq_def] at hst
  | .builtin name => simp [spineWF.eq_def, WFValue.eq_def] at hst
  | .vector l => simp [spineWF.eq_def, WFValue.eq_def] at hst
  | .pfloat => simp [spineWF.eq_def, WFValue.eq_def] at hst

lemma display_wf {v : Value} (h : WFValue v = true) :
    display v = .ok (dChars v) := by
  obtain ⟨s, hs⟩ := (display_ok_aux (vsize v)).1 v le_rfl h
  rw [hs, dChars_of_display hs]

lemma dChars_cons_shape {h t : Value} (hq : quote_p (.cons h t) = false)
    (hwh : WFValue h = true) (hst : spineWF t = true) :
    display (.cons h t) = .ok ('(' :: (dChars h ++ spineChars t)) := by
  have hd := display_wf hwh
  obtain ⟨ps, hps, hpne, hpeq⟩ :=
    (display_ok_aux (vsize t)).2 t le_rfl hst h hd
  rw [display_match_cons, if_neg (by simp [hq]), display_cons_def, hps]
  simp only [except_map_ok]
  rw [← hpeq]
  rfl

lemma display_quote_shape {q : String} {x : Value}
    (hq : q = "quote" ∨ q = "quasiquote" ∨ q = "unquote" ∨
      q = "unquote-splicing")
    (hwx : WFValue x = true) :
    display (.cons (.symbol q) (.cons x .nil)) = .ok
      ((if q = "quote" then ['\'']
        else if q = "quasiquote" then ['`']
        else if q = "unquote" then [',']
        else [',', '@']) ++ dChars x) := by
  have hqp : quote_p (.cons (.symbol q) (.cons x .nil)) = true := by
    simp [quote_p]
    tauto
  have hd := display_wf hwx
  rw [display_match_cons, if_pos hqp, display_quote_sym]
  rcases hq with hq | hq | hq | hq
  all_goals subst hq
  · rw [if_pos rfl, if_pos rfl, hd]
    rfl
  · rw [if_neg (by decide), if_pos rfl, if_neg (by decide), if_pos rfl, hd]
    rfl
  · rw [if_neg (by decide), if_neg (by decide), if_pos rfl,
      if_neg (by decide), if_neg (by decide), if_pos rfl, hd]
    rfl
  · rw [if_neg (by decide), if_neg (by decide), if_neg (by decide),
      if_pos rfl, if_neg (by decide), if_neg (by decide),
      if_neg (by decide), hd]
    rfl

/-! ### `==` evaluation lemmas -/

lemma pyEq_cons (a b c d : Value) :
    pyEq (.cons a b) (.cons c d) = (pyEq a c && pyEq b d) := by
  rw [pyEq.eq_def]

lemma pyEq_nil_refl : pyEq .nil .nil = true := by
  rw [pyEq.eq_def]

lemma pyEq_bool_refl (b : Bool) : pyEq (.boolean b) (.boolean b) = true := by
  rw [pyEq.eq_def]
  simp [numVal]

lemma pyEq_int_int (m k : Int) :
    pyEq (.integer m) (.integer k) = decide ((m : ℚ) = (k : ℚ)) := by
  rw [pyEq.eq_def]
  rfl

lemma pyEq_int_refl (k : Int) : pyEq (.integer k) (.integer k) = true := by
  rw [pyEq_int_int]
  simp

lemma pyEq_dec_refl (d : Dec) : pyEq (.decimal d) (.decimal d) = true := by
  rw [pyEq.eq_def]
  simp [numVal]

lemma pyEq_int_dec (k : Int) (d : Dec) :
    pyEq (.integer k) (.decimal d) = decide ((k : ℚ) = d.toRat) := by
  rw [pyEq.eq_def]
  rfl

lemma pyEq_string_refl (s : String) :
    pyEq (.string s) (.string s) = true := by
  rw [pyEq.eq_def]
  simp

lemma pyEq_symbol_refl (s : String) :
    pyEq (.symbol s) (.symbol s) = true := by
  rw [pyEq.eq_def]
  simp

/-! ### Atom-level reader lemmas -/

lemma string_mk_ne_of_head {c0 c1 : Char} {rest r1 : List Char}
    (h : c0 ≠ c1) : (⟨c0 :: rest⟩ : String) ≠ ⟨c1 :: r1⟩ := by
  intro habs
  have hd := congrArg String.data habs
  simp only [List.cons.injEq] at hd
  exact h hd.1

lemma quoteName_none_of_head (c0 : Char) (rest : List Char)
    (h1 : c0 ≠ '\'') (h2 : c0 ≠ '`') (h3 : c0 ≠ ',') :
    quoteName ⟨c0 :: rest⟩ = none := by
  unfold quoteName
  rw [if_neg (string_mk_ne_of_head h1), if_neg (string_mk_ne_of_head h2),
    if_neg (string_mk_ne_of_head h3), if_neg (string_mk_ne_of_head h3)]

lemma read_boolean_none_of_head (c0 : Char) (rest : List Char)
    (h : c0 ≠ '#') :
    read_boolean ⟨c0 :: rest⟩ = none := by
  unfold read_boolean
  rw [if_neg (string_mk_ne_of_head h), if_neg (string_mk_ne_of_head h)]

lemma read_atom_succ (fuel : Nat) (tok : String) (s : List Char) :
    read_atom (fuel + 1) tok s =
      (match quoteName tok with
       | some q =>
         (match read fuel s with
          | none => none
          | some (.error e) => some (.error e)
          | some (.ok (.eof, _)) => some (.error .syntaxError)
          | some (.ok (.val v, s2)) => some (.ok (list [.symbol q, v], s2)))
       | none =>
         if tok.data.head? = some '"' then
           some (.ok (.string (read_string tok), s))
         else some (.ok (readAtomValue tok, s))) := rfl

lemma read_succ (fuel : Nat) (s : List Char) :
    read (fuel + 1) s =
      (match read_token s with
       | .error e => some (.error e)
       | .ok (none, s1) => some (.ok (.eof, s1))
       | .ok (some tok, s1) =>
         if tok = ")" then some (.error .syntaxError)
         else if tok = "(" then
           match read_list fuel s1 with
           | none => none
           | some (.error e) => some (.error e)
           | some (.ok (v, s2)) => some (.ok (.val v, s2))
         else
           match read_atom fuel tok s1 with
           | none => none
           | some (.error e) => some (.error e)
           | some (.ok (v, s2)) => some (.ok (.val v, s2))) := rfl

lemma read_list_succ (fuel : Nat) (s : List Char) :
    read_list (fuel + 1) s =
      (match read_token s with
       | .error e => some (.error e)
       | .ok (none, _) => some (.error .syntaxError)
       | .ok (some tok, s1) =>
         if tok = ")" then some (.ok (.nil, s1))
         else if tok = "(" then
           match read_list fuel s1 with
           | none => none
           | some (.error e) => some (.error e)
           | some (.ok (v, s2)) =>
             match read_list_tail fuel s2 with
             | none => none
             | some (.error e) => some (.error e)
             | some (.ok (t, s3)) => some (.ok (.cons v t, s3))
         else
           match read_atom fuel tok s1 with
           | none => none
           | some (.error e) => some (.error e)
           | some (.ok (v, s2)) =>
             match read_list_tail fuel s2 with
             | none => none
             | some (.error e) => some (.error e)
             | some (.ok (t, s3)) => some (.ok (.cons v t, s3))) := rfl

lemma read_list_tail_succ (fuel : Nat) (s : List Char) :
    read_list_tail (fuel + 1) s =
      (match read_token s with
       | .error e => some (.error e)
       | .ok (none, _) => some (.error .syntaxError)
       | .ok (some tok, s1) =>
         if tok = ")" then some (.ok (.nil, s1))
         else if tok = "(" then
           match read_list fuel s1 with
           | none => none
           | some (.error e) => some (.error e)
           | some (.ok (v, s2)) =>
             match read_list_tail fuel s2 with
             | none => none
             | some (.error e) => some (.error e)
             | some (.ok (t, s3)) => some (.ok (.cons v t, s3))
         else if tok = "." then read_cons_head fuel s1
         else
           match read_atom fuel tok s1 with
           | none => none
           | some (.error e) => some (.error e)
           | some (.ok (v, s2)) =>
             match read_list_tail fuel s2 with
             | none => none
             | some (.error e) => some (.error e)
             | some (.ok (t, s3)) => some (.ok (.cons v t, s3))) := rfl

lemma read_cons_head_succ (fuel : Nat) (s : List Char) :
    read_cons_head (fuel + 1) s =
      (match read_token s with
       | .error e => some (.error e)
       | .ok (none, _) => some (.error .syntaxError)
       | .ok (some tok, s1) =>
         if tok = ")" then some (.error .syntaxError)
         else if tok = "(" then
           match read_list fuel s1 with
           | none => none
           | some (.error e) => some (.error e)
           | some (.ok (v, s2)) => read_cons_tail fuel v s2
         else
           match read_atom fuel tok s1 with
           | none => none
           | some (.error e) => some (.error e)
           | some (.ok (v, s2)) => read_cons_tail fuel v s2) := rfl

lemma read_cons_tail_succ (fuel : Nat) (hd : Value) (s : List Char) :
    read_cons_tail (fuel + 1) hd s =
      (match read_token s with
       | .error e => some (.error e)
       | .ok (none, _) => some (.error .syntaxError)
       | .ok (some tok, s1) =>
         if tok = ")" then some (.ok (hd, s1))
         else if tok = "." then
           match read_cons_head fuel s1 with
           | none => none
           | some (.error e) => some (.error e)
           | some (.ok (t, s2)) => some (.ok (.cons hd t, s2))
         else some (.error .syntaxError)) := rfl

lemma read_token_string (s : String) (r : List Char) :
    read_token (display_string s ++ r) =
      .ok (some ⟨'"' :: (escapeChars s.data ++ ['"'])⟩, r) := by
  unfold display_string
  have hstream : ('"' :: escapeChars s.data ++ ['"']) ++ r =
      '"' :: (escapeChars s.data ++ '"' :: r) := by
    simp
  rw [hstream, read_token_cons]
  simp [tokenize_string_body_escape]

/-! ### Character classification of printed atoms -/

lemma digit_not_delim {c : Char} (h : isDigitChar c = true) :
    delimChar c = false := by
  simp only [delimChar, decide_eq_false_iff_not]
  push_neg
  exact ⟨digit_ne_of h _ (by decide), digit_ne_of h _ (by decide),
    digit_ne_of h _ (by decide), digit_ne_of h _ (by decide),
    digit_ne_of h _ (by decide), digit_ne_of h _ (by decide),
    digit_ne_of h _ (by decide)⟩

lemma digit_atomStart {c : Char} (h : isDigitChar c = true) :
    atomStartOk c = true := by
  simp only [atomStartOk, digit_not_delim h, Bool.not_false, Bool.true_and,
    Bool.and_eq_true, decide_eq_true_eq]
  exact ⟨⟨digit_ne_of h _ (by decide), digit_ne_of h _ (by decide)⟩,
    digit_ne_of h _ (by decide)⟩

lemma dChars_nil : dChars .nil = ['(', ')'] := by
  rw [dChars_of_display display_nil_eq]
  rfl

lemma dChars_boolean (b : Bool) : dChars (.boolean b) = display_boolean b :=
  dChars_of_display (display_boolean_eq b)

lemma dChars_integer (n : Int) : dChars (.integer n) = display_integer n :=
  dChars_of_display (display_integer_eq n)

lemma dChars_decimal (d : Dec) : dChars (.decimal d) = decToSci d :=
  dChars_of_display (display_decimal_eq d)

lemma dChars_string (s : String) : dChars (.string s) = display_string s :=
  dChars_of_display (display_string_eq s)

lemma dChars_symbol (s : String) : dChars (.symbol s) = s.data :=
  dChars_of_display (display_symbol_eq s)

lemma display_integer_shape (n : Int) :
    ∃ c0 A, display_integer n = c0 :: A ∧ atomStartOk c0 = true ∧
      c0 ≠ '#' ∧ c0 ≠ '"' ∧ c0 ≠ '@' ∧ ∀ c ∈ A, delimChar c = false := by
  unfold display_integer
  by_cases hn : n < 0
  · rw [if_pos hn]
    refine ⟨'-', _, rfl, by decide, by decide, by decide, by decide, ?_⟩
    intro c hc
    exact digit_not_delim (digitsStr_all_digits _ c hc)
  · rw [if_neg hn]
    cases hds : digitsStr n.toNat with
    | nil => exact absurd hds (digitsStr_ne_nil _)
    | cons c0 A =>
      have hc0 : isDigitChar c0 = true :=
        digitsStr_all_digits _ c0 (by rw [hds]; simp)
      refine ⟨c0, A, rfl, digit_atomStart hc0,
        digit_ne_of hc0 _ (by decide), digit_ne_of hc0 _ (by decide),
        digit_ne_of hc0 _ (by decide), ?_⟩
      intro c hc
      exact digit_not_delim (digitsStr_all_digits _ c (by rw [hds]; simp [hc]))

lemma decToSciBody_chars (d : Dec) :
    ∀ c ∈ decToSciBody d,
      isDigitChar c = true ∨ c = '.' ∨ c = 'E' ∨ c = '-' ∨ c = '+' := by
  have hdig := digitsStr_all_digits d.coeff
  intro c hc
  unfold decToSciBody at hc
  by_cases h1 : d.exp ≤ 0 ∧ -6 ≤ decAdjusted d
  · rw [if_pos h1] at hc
    by_cases h2 : d.exp = 0
    · rw [if_pos h2] at hc
      exact Or.inl (hdig c hc)
    · rw [if_neg h2] at hc
      by_cases h3 : 0 ≤ decAdjusted d
      · rw [if_pos h3] at hc
        rcases List.mem_append.mp hc with hc | hc
        · exact Or.inl (hdig c (List.take_subset _ _ hc))
        · rcases List.mem_cons.mp hc with hc | hc
          · subst hc; simp
          · exact Or.inl (hdig c (List.drop_subset _ _ hc))
      · rw [if_neg h3] at hc
        rcases List.mem_cons.mp hc with hc | hc
        · subst hc; exact Or.inl (by decide)
        rcases List.mem_cons.mp hc with hc | hc
        · subst hc; simp
        rcases List.mem_append.mp hc with hc | hc
        · rw [List.eq_of_mem_replicate hc]
          exact Or.inl (by decide)
        · exact Or.inl (hdig c hc)
  · rw [if_neg h1] at hc
    obtain ⟨c0, ds0, hds⟩ : ∃ c0 ds0, digitsStr d.coeff = c0 :: ds0 := by
      cases hds : digitsStr d.coeff with
      | nil => exact absurd hds (digitsStr_ne_nil _)
      | cons c0 ds0 => exact ⟨c0, ds0, rfl⟩
    rw [hds] at hc
    rcases List.mem_cons.mp hc with hc | hc
    · subst hc
      exact Or.inl (hdig c (by rw [hds]; simp))
    rcases List.mem_append.mp hc with hc | hc
    · by_cases hnil : ds0 = []
      · rw [if_pos hnil] at hc
        simp at hc
      · rw [if_neg hnil] at hc
        rcases List.mem_cons.mp hc with hc | hc
        · subst hc; simp
        · exact Or.inl (hdig c (by rw [hds]; simp [hc]))
    rcases List.mem_cons.mp hc with hc | hc
    · subst hc; simp
    rcases List.mem_cons.mp hc with hc | hc
    · subst hc
      by_cases hlt : decAdjusted d < 0
      · rw [if_pos hlt]
        simp
      · rw [if_neg hlt]
        simp
    · exact Or.inl (digitsStr_all_digits _ c hc)

lemma decToSci_chars (d : Dec) :
    ∀ c ∈ decToSci d,
      isDigitChar c = true ∨ c = '.' ∨ c = 'E' ∨ c = '-' ∨ c = '+' := by
  intro c hc
  unfold decToSci at hc
  by_cases hs : d.sign = true
  · rw [if_pos hs] at hc
    rcases List.mem_cons.mp hc with hc | hc
    · subst hc; simp
    · exact decToSciBody_chars d c hc
  · rw [if_neg hs] at hc
    exact decToSciBody_chars d c hc

lemma sci_char_not_delim {c : Char}
    (h : isDigitChar c = true ∨ c = '.' ∨ c = 'E' ∨ c = '-' ∨ c = '+') :
    delimChar c = false := by
  rcases h with h | h | h | h | h
  · exact digit_not_delim h
  all_goals subst h
  all_goals decide

lemma decToSci_shape (d : Dec) :
    ∃ c0 A, decToSci d = c0 :: A ∧ atomStartOk c0 = true ∧
      c0 ≠ '#' ∧ c0 ≠ '"' ∧ c0 ≠ '@' ∧ ∀ c ∈ A, delimChar c = false := by
  obtain ⟨cb, rb, hshape, hcb⟩ := decToSciBody_shape d
  unfold decToSci
  by_cases hs : d.sign = true
  · rw [if_pos hs]
    refine ⟨'-', _, rfl, by decide, by decide, by decide, by decide, ?_⟩
    intro c hc
    exact sci_char_not_delim (decToSciBody_chars d c hc)
  · rw [if_neg hs]
    refine ⟨cb, rb, hshape, digit_atomStart hcb,
      digit_ne_of hcb _ (by decide), digit_ne_of hcb _ (by decide),
      digit_ne_of hcb _ (by decide), ?_⟩
    intro c hc
    exact sci_char_not_delim (decToSciBody_chars d c (by rw [hshape]; simp [hc]))

/-! ### `readAtomValue` evaluations -/

lemma readAtomValue_boolean (b : Bool) :
    readAtomValue ⟨display_boolean b⟩ = .boolean b := by
  cases b <;> rfl

lemma readAtomValue_integer (n : Int) :
    readAtomValue ⟨display_integer n⟩ = .integer n := by
  obtain ⟨c0, A, hshape, hok, hhash, hq, hat, hA⟩ := display_integer_shape n
  have hb : read_boolean ⟨display_integer n⟩ = none := by
    rw [hshape]
    exact read_boolean_none_of_head c0 A hhash
  have hi : parseInt (⟨display_integer n⟩ : String).data = some n :=
    parseInt_display_integer n
  simp [readAtomValue, hb, hi]

lemma readAtomValue_decimal_exp0 (d : Dec) (h : d.exp = 0) :
    readAtomValue ⟨decToSci d⟩ =
      .integer (if d.sign then -(d.coeff : Int) else (d.coeff : Int)) := by
  obtain ⟨c0, A, hshape, hok, hhash, hq, hat, hA⟩ := decToSci_shape d
  have hb : read_boolean ⟨decToSci d⟩ = none := by
    rw [hshape]
    exact read_boolean_none_of_head c0 A hhash
  have hi : parseInt (⟨decToSci d⟩ : String).data =
      some (if d.sign then -(d.coeff : Int) else (d.coeff : Int)) :=
    parseInt_decToSci_exp0 d h
  simp [readAtomValue, hb, hi]

lemma readAtomValue_decimal_expne (d : Dec) (h : d.exp ≠ 0) :
    readAtomValue ⟨decToSci d⟩ = .decimal d := by
  obtain ⟨c0, A, hshape, hok, hhash, hq, hat, hA⟩ := decToSci_shape d
  have hb : read_boolean ⟨decToSci d⟩ = none := by
    rw [hshape]
    exact read_boolean_none_of_head c0 A hhash
  have hi : parseInt (⟨decToSci d⟩ : String).data = none :=
    parseInt_decToSci_none d h
  have hd : parseDec (⟨decToSci d⟩ : String).data = some d :=
    parseDec_decToSci d
  simp [readAtomValue, hb, hi, hd]

lemma symbolOK_destruct {s : String} (h : symbolOK s = true) :
    ∃ c0 rest, s.data = c0 :: rest ∧ atomStartOk c0 = true ∧
      (∀ c ∈ rest, delimChar c = false) ∧
      read_boolean s = none ∧ parseInt s.data = none ∧
      parseDec s.data = none ∧ s ≠ "." := by
  unfold symbolOK at h
  cases hd : s.data with
  | nil => rw [hd] at h; simp at h
  | cons c0 rest =>
    rw [hd] at h
    simp only [Bool.and_eq_true, List.all_eq_true, Bool.not_eq_true',
      Option.isNone_iff_eq_none, decide_eq_true_eq] at h
    exact ⟨c0, rest, rfl, h.1.1.1.1.1, fun c hc => h.1.1.1.1.2 c hc,
      h.1.1.1.2, h.1.1.2, h.1.2, h.2⟩

lemma readAtomValue_symbol {s : String} (h : symbolOK s = true) :
    readAtomValue s = .symbol s := by
  obtain ⟨c0, rest, hd, hok, hrest, hb, hi, hdec, hdot⟩ := symbolOK_destruct h
  simp [readAtomValue, hb, hi, hdec]

/-! ### Element-level reader lemmas -/

lemma spineChars_headDelim (t : Value) (r : List Char) :
    headDelim (spineChars t ++ r) = true := by
  cases t <;> simp [spineChars, headDelim, delimChar]

lemma read_atom_plain (g : Nat) (tok : String) (s : List Char)
    (c0 : Char) (rest : List Char) (hd : tok.data = c0 :: rest)
    (h1 : c0 ≠ '\'') (h2 : c0 ≠ '`') (h3 : c0 ≠ ',') (h4 : c0 ≠ '"') :
    read_atom (g + 1) tok s = some (.ok (readAtomValue tok, s)) := by
  have htokmk : tok = ⟨c0 :: rest⟩ := by
    cases tok with
    | mk data =>
      simp only at hd
      rw [hd]
  have hq : quoteName tok = none := by
    rw [htokmk]
    exact quoteName_none_of_head c0 rest h1 h2 h3
  have hh : tok.data.head? ≠ some '"' := by
    rw [hd]
    simp [h4]
  rw [read_atom_succ, hq]
  simp [hh]

lemma read_of_elem {f : Nat} {x : Value} {r : List Char}
    (h : ReadElemOK f x r) :
    ∃ w, read (f + 1) (dChars x ++ r) = some (.ok (.val w, r)) ∧
      pyEq w x = true := by
  obtain ⟨tok, s1, w, htok, hne1, hne2, hpy, hbr⟩ := h
  refine ⟨w, ?_, hpy⟩
  rcases hbr with ⟨htokp, hlist⟩ | ⟨htokn, hatom⟩
  · simp only [read_succ, htok, if_neg hne1, if_pos htokp, hlist]
  · simp only [read_succ, htok, if_neg hne1, if_neg htokn, hatom]

lemma readElemOK_nil (f : Nat) (hf : 1 ≤ f) (r : List Char)
    (hr : headDelim r = true) : ReadElemOK f .nil r := by
  obtain ⟨g, rfl⟩ : ∃ g, f = g + 1 := ⟨f - 1, by omega⟩
  refine ⟨"(", ')' :: r, .nil, ?_, by decide, by decide, pyEq_nil_refl,
    Or.inl ⟨rfl, ?_⟩⟩
  · rw [dChars_nil]
    exact read_token_open (')' :: r)
  · rw [read_list_succ, read_token_close]
    simp

lemma readElemOK_boolean (f : Nat) (hf : 1 ≤ f) (b : Bool) (r : List Char)
    (hr : headDelim r = true) : ReadElemOK f (.boolean b) r := by
  obtain ⟨g, rfl⟩ : ∃ g, f = g + 1 := ⟨f - 1, by omega⟩
  cases b
  · refine ⟨"#f", r, .boolean false, ?_, by decide, by decide,
      pyEq_bool_refl false, Or.inr ⟨by decide, ?_⟩⟩
    · rw [dChars_boolean]
      exact read_token_atom '#' ['f'] r (by decide)
        (by intro c hc; simp at hc; subst hc; decide) hr
    · rfl
  · refine ⟨"#t", r, .boolean true, ?_, by decide, by decide,
      pyEq_bool_refl true, Or.inr ⟨by decide, ?_⟩⟩
    · rw [dChars_boolean]
      exact read_token_atom '#' ['t'] r (by decide)
        (by intro c hc; simp at hc; subst hc; decide) hr
    · rfl

lemma readElemOK_integer (f : Nat) (hf : 1 ≤ f) (n : Int) (r : List Char)
    (hr : headDelim r = true) : ReadElemOK f (.integer n) r := by
  obtain ⟨g, rfl⟩ : ∃ g, f = g + 1 := ⟨f - 1, by omega⟩
  obtain ⟨c0, A, hshape, hok, hhash, hquo, hat, hA⟩ := display_integer_shape n
  obtain ⟨h1, h2, h3, h4, h5, h6, h7, h8, h9, h10⟩ := atomStartOk_facts hok
  have hdot : c0 ≠ '.' := by
    intro hc
    subst hc
    unfold display_integer at hshape
    split at hshape
    · simp at hshape
    · have := digitsStr_all_digits n.toNat '.' (by rw [hshape]; simp)
      exact absurd this (by decide)
  refine ⟨⟨display_integer n⟩, r, .integer n, ?_, ?_, ?_, pyEq_int_refl n,
    Or.inr ⟨?_, ?_⟩⟩
  · rw [dChars_integer, hshape]
    exact read_token_atom c0 A r hok hA hr
  · rw [hshape]
    exact string_mk_ne_of_head h3
  · rw [hshape]
    exact string_mk_ne_of_head hdot
  · rw [hshape]
    exact string_mk_ne_of_head h2
  · rw [read_atom_plain g _ r c0 A (by rw [show (⟨display_integer n⟩ :
        String).data = display_integer n from rfl, hshape]) h8 h9 h10 h1,
      readAtomValue_integer]

lemma readElemOK_decimal (f : Nat) (hf : 1 ≤ f) (d : Dec) (r : List Char)
    (hr : headDelim r = true) : ReadElemOK f (.decimal d) r := by
  obtain ⟨g, rfl⟩ : ∃ g, f = g + 1 := ⟨f - 1, by omega⟩
  obtain ⟨c0, A, hshape, hok, hhash, hquo, hat, hA⟩ := decToSci_shape d
  obtain ⟨h1, h2, h3, h4, h5, h6, h7, h8, h9, h10⟩ := atomStartOk_facts hok
  have hdot : c0 ≠ '.' := by
    intro hc
    subst hc
    have hcl := decToSci_chars d
    unfold decToSci at hshape
    by_cases hs : d.sign = true
    · rw [if_pos hs] at hshape
      simp at hshape
    · rw [if_neg hs] at hshape
      obtain ⟨cb, rb, hb, hcb⟩ := decToSciBody_shape d
      rw [hb] at hshape
      rw [List.cons.injEq] at hshape
      exact absurd hcb (by rw [hshape.1]; decide)
  have hw : ∃ w, readAtomValue ⟨decToSci d⟩ = w ∧
      pyEq w (.decimal d) = true := by
    by_cases hexp : d.exp = 0
    · refine ⟨_, readAtomValue_decimal_exp0 d hexp, ?_⟩
      rw [pyEq_int_dec]
      simp only [decide_eq_true_eq, Dec.toRat, hexp, zpow_zero, mul_one]
      by_cases hs : d.sign = true
      · rw [if_pos hs, if_pos hs]
        push_cast
        ring
      · rw [if_neg hs, if_neg hs]
        push_cast
        ring
    · exact ⟨_, readAtomValue_decimal_expne d hexp, pyEq_dec_refl d⟩
  obtain ⟨w, hwv, hpy⟩ := hw
  refine ⟨⟨decToSci d⟩, r, w, ?_, ?_, ?_, hpy, Or.inr ⟨?_, ?_⟩⟩
  · rw [dChars_decimal, hshape]
    exact read_token_atom c0 A r hok hA hr
  · rw [hshape]
    exact string_mk_ne_of_head h3
  · rw [hshape]
    exact string_mk_ne_of_head hdot
  · rw [hshape]
    exact string_mk_ne_of_head h2
  · rw [read_atom_plain g _ r c0 A (by rw [show (⟨decToSci d⟩ :
        String).data = decToSci d from rfl, hshape]) h8 h9 h10 h1, hwv]

lemma readElemOK_string (f : Nat) (hf : 1 ≤ f) (s : String) (r : List Char)
    (hr : headDelim r = true) : ReadElemOK f (.string s) r := by
  obtain ⟨g, rfl⟩ : ∃ g, f = g + 1 := ⟨f - 1, by omega⟩
  refine ⟨⟨'"' :: (escapeChars s.data ++ ['"'])⟩, r, .string s, ?_,
    string_mk_ne_of_head (by decide), string_mk_ne_of_head (by decide),
    pyEq_string_refl s, Or.inr ⟨string_mk_ne_of_head (by decide), ?_⟩⟩
  · rw [dChars_string]
    exact read_token_string s r
  · have hq : quoteName ⟨'"' :: (escapeChars s.data ++ ['"'])⟩ = none :=
      quoteName_none_of_head _ _ (by decide) (by decide) (by decide)
    have hrs : read_string ⟨'"' :: (escapeChars s.data ++ ['"'])⟩ = s := by
      unfold read_string
      have hdl : (((⟨'"' :: (escapeChars s.data ++ ['"'])⟩ :
          String).data.drop 1)).dropLast = escapeChars s.data := by
        show ((escapeChars s.data ++ ['"'])).dropLast = escapeChars s.data
        exact List.dropLast_concat
      rw [hdl, unescapeChars_escapeChars]
    rw [read_atom_succ, hq]
    simp [hrs]

lemma readElemOK_symbol (f : Nat) (hf : 1 ≤ f) (s : String)
    (hs : symbolOK s = true) (r : List Char)
    (hr : headDelim r = true) : ReadElemOK f (.symbol s) r := by
  obtain ⟨g, rfl⟩ : ∃ g, f = g + 1 := ⟨f - 1, by omega⟩
  obtain ⟨c0, rest, hd, hok, hrest, hb, hi, hdec, hdot⟩ := symbolOK_destruct hs
  obtain ⟨h1, h2, h3, h4, h5, h6, h7, h8, h9, h10⟩ := atomStartOk_facts hok
  have hmk : s = ⟨c0 :: rest⟩ := by
    cases s with
    | mk data =>
      simp only at hd
      rw [hd]
  refine ⟨s, r, .symbol s, ?_, ?_, hdot, pyEq_symbol_refl s,
    Or.inr ⟨?_, ?_⟩⟩
  · rw [dChars_symbol]
    rw [hmk]
    exact read_token_atom c0 rest r hok hrest hr
  · rw [hmk]
    exact string_mk_ne_of_head h3
  · rw [hmk]
    exact string_mk_ne_of_head h2
  · rw [read_atom_plain g s r c0 rest hd h8 h9 h10 h1,
      readAtomValue_symbol hs]

lemma dChars_head_wf (x : Value) (h : WFValue x = true) :
    ∃ c rest, dChars x = c :: rest ∧ (c = '@' → atSymbol x = true) := by
  cases x with
  | nil => exact ⟨'(', _, dChars_nil, by decide⟩
  | boolean b =>
    cases b
    · exact ⟨'#', _, by rw [dChars_boolean]; rfl, by decide⟩
    · exact ⟨'#', _, by rw [dChars_boolean]; rfl, by decide⟩
  | integer n =>
    obtain ⟨c0, A, hshape, hok, hhash, hquo, hat, hA⟩ := display_integer_shape n
    exact ⟨c0, A, by rw [dChars_integer, hshape], fun hc => absurd hc hat⟩
  | decimal d =>
    obtain ⟨c0, A, hshape, hok, hhash, hquo, hat, hA⟩ := decToSci_shape d
    exact ⟨c0, A, by rw [dChars_decimal, hshape], fun hc => absurd hc hat⟩
  | string s =>
    exact ⟨'"', _, by rw [dChars_string]; rfl,
      fun hc => absurd hc (by decide)⟩
  | symbol s =>
    have hsOK : symbolOK s = true := by
      rw [WFValue.eq_def] at h
      exact h
    obtain ⟨c0, rest, hd, _⟩ := symbolOK_destruct hsOK
    refine ⟨c0, rest, by rw [dChars_symbol, hd], ?_⟩
    intro hc
    subst hc
    simp [atSymbol, hd]
  | pfloat => rw [WFValue.eq_def] at h; simp at h
  | vector l => rw [WFValue.eq_def] at h; simp at h
  | builtin name => rw [WFValue.eq_def] at h; simp at h
  | procedure p => rw [WFValue.eq_def] at h; simp at h
  | cons hh tt =>
    rw [WFValue_cons] at h
    by_cases hqp : quote_p (.cons hh tt) = true
    · rw [if_pos hqp] at h
      cases hh with
      | symbol q =>
        cases tt with
        | cons x2 t2 =>
          cases t2 with
          | nil =>
            simp only [Bool.and_eq_true] at h
            have hq2 : q = "quote" ∨ q = "quasiquote" ∨ q = "unquote" ∨
                q = "unquote-splicing" := by
              simpa [quote_p] using hqp
            have hdisp := display_quote_shape hq2 h.1
            rcases hq2 with hq2 | hq2 | hq2 | hq2
            all_goals subst hq2
            · exact ⟨'\'', _, by rw [dChars_of_display hdisp]; rfl,
                fun hc => absurd hc (by decide)⟩
            · exact ⟨'`', _, by rw [dChars_of_display hdisp]; rfl,
                fun hc => absurd hc (by decide)⟩
            · exact ⟨',', _, by rw [dChars_of_display hdisp]; rfl,
                fun hc => absurd hc (by decide)⟩
            · exact ⟨',', _, by rw [dChars_of_display hdisp]; rfl,
                fun hc => absurd hc (by decide)⟩
          | cons a b => simp at h
          | boolean a => simp at h
          | integer a => simp at h
          | decimal a => simp at h
          | string a => simp at h
          | symbol a => simp at h
          | procedure a => simp at h
          | builtin a => simp at h
          | vector a => simp at h
          | pfloat => simp at h
        | nil => simp at h
        | boolean a => simp at h
        | integer a => simp at h
        | decimal a => simp at h
        | string a => simp at h
        | symbol a => simp at h
        | procedure a => simp at h
        | builtin a => simp at h
        | vector a => simp at h
        | pfloat => simp at h
      | nil => simp [quote_p] at hqp
      | boolean a => simp [quote_p] at hqp
      | integer a => simp [quote_p] at hqp
      | decimal a => simp [quote_p] at hqp
      | string a => simp [quote_p] at hqp
      | cons a b => simp [quote_p] at hqp
      | procedure a => simp [quote_p] at hqp
      | builtin a => simp [quote_p] at hqp
      | vector a => simp [quote_p] at hqp
      | pfloat => simp [quote_p] at hqp
    · rw [if_neg hqp] at h
      simp only [Bool.and_eq_true] at h
      have hqf : quote_p (.cons hh tt) = false := by
        simpa using hqp
      exact ⟨'(', _,
        dChars_of_display (dChars_cons_shape hqf h.1 h.2),
        fun hc => absurd hc (by decide)⟩

/-- The reader inverts the printer: on well-formed values, one displayed
form followed by a delimiter reads back as one `==`-equal value (element
level), and a displayed spine reads back through `read_list_tail`. -/
lemma read_ok_aux :
    ∀ n : Nat,
      (∀ v : Value, vsize v ≤ n → WFValue v = true →
        ∀ f : Nat, 2 * vsize v + 4 ≤ f → ∀ r : List Char,
          headDelim r = true → ReadElemOK f v r) ∧
      (∀ t : Value, vsize t ≤ n → spineWF t = true →
        ∀ f : Nat, 2 * vsize t + 6 ≤ f → ∀ r : List Char,
          headDelim r = true →
          ∃ w, read_list_tail f (spineChars t ++ r) = some (.ok (w, r)) ∧
            pyEq w t = true) := by
  intro n
  induction n using Nat.strong_induction_on with
  | _ n ih =>
  have PE : ∀ v : Value, vsize v ≤ n → WFValue v = true →
      ∀ f : Nat, 2 * vsize v + 4 ≤ f → ∀ r : List Char,
        headDelim r = true → ReadElemOK f v r := by
    intro v hv hwf f hf r hr
    match v with
    | .nil => exact readElemOK_nil f (by omega) r hr
    | .boolean b => exact readElemOK_boolean f (by omega) b r hr
    | .integer k => exact readElemOK_integer f (by omega) k r hr
    | .decimal d => exact readElemOK_decimal f (by omega) d r hr
    | .string s => exact readElemOK_string f (by omega) s r hr
    | .symbol s =>
      have hsOK : symbolOK s = true := by
        rw [WFValue.eq_def] at hwf
        exact hwf
      exact readElemOK_symbol f (by omega) s hsOK r hr
    | .procedure p => rw [WFValue.eq_def] at hwf; simp at hwf
    | .builtin name => rw [WFValue.eq_def] at hwf; simp at hwf
    | .vector l => rw [WFValue.eq_def] at hwf; simp at hwf
    | .pfloat => rw [WFValue.eq_def] at hwf; simp at hwf
    | .cons h t =>
      rw [WFValue_cons] at hwf
      by_cases hq : quote_p (.cons h t) = true
      · rw [if_pos hq] at hwf
        match h, t, hq, hwf, hv with
        | .symbol q, .cons x .nil, hq, hwf, hv =>
          simp only [Bool.and_eq_true] at hwf
          have hwx : WFValue x = true := hwf.1
          have hsz : vsize (Value.cons (.symbol q) (.cons x .nil)) =
              vsize x + 4 := by
            simp [vsize]
            omega
          have hx : vsize x < n := by omega
          obtain ⟨g2, rfl⟩ : ∃ g2, f = g2 + 2 := ⟨f - 2, by omega⟩
          have hel : ReadElemOK g2 x r :=
            (ih (vsize x) hx).1 x le_rfl hwx g2 (by omega) r hr
          obtain ⟨w2, hread, hpyx⟩ := read_of_elem hel
          have hq2 : q = "quote" ∨ q = "quasiquote" ∨ q = "unquote" ∨
              q = "unquote-splicing" := by
            simpa [quote_p] using hq
          have hdisp := display_quote_shape hq2 hwx
          have hpyall : pyEq (.cons (.symbol q) (.cons w2 .nil))
              (.cons (.symbol q) (.cons x .nil)) = true := by
            rw [pyEq_cons, pyEq_symbol_refl, pyEq_cons, pyEq_nil_refl, hpyx]
            rfl
          rcases hq2 with hq2 | hq2 | hq2 | hq2
          all_goals subst hq2
          · refine ⟨"'", dChars x ++ r,
              .cons (.symbol "quote") (.cons w2 .nil), ?_, by decide,
              by decide, hpyall, Or.inr ⟨by decide, ?_⟩⟩
            · rw [dChars_of_display hdisp]
              show read_token ('\'' :: (dChars x ++ r)) = _
              exact read_token_quote_mark _
            · rw [read_atom_succ]
              simp only [show quoteName "'" = some "quote" from rfl, hread]
              rfl
          · refine ⟨"`", dChars x ++ r,
              .cons (.symbol "quasiquote") (.cons w2 .nil), ?_, by decide,
              by decide, hpyall, Or.inr ⟨by decide, ?_⟩⟩
            · rw [dChars_of_display hdisp]
              show read_token ('`' :: (dChars x ++ r)) = _
              exact read_token_backquote _
            · rw [read_atom_succ]
              simp only [show quoteName "`" = some "quasiquote" from rfl,
                hread]
              rfl
          · obtain ⟨cx, restx, hdx, hat⟩ := dChars_head_wf x hwx
            have hatf : atSymbol x = false := by
              simpa using hwf.2
            have hcx : cx ≠ '@' := by
              intro hc
              rw [hat hc] at hatf
              exact absurd hatf (by simp)
            refine ⟨",", dChars x ++ r,
              .cons (.symbol "unquote") (.cons w2 .nil), ?_, by decide,
              by decide, hpyall, Or.inr ⟨by decide, ?_⟩⟩
            · rw [dChars_of_display hdisp]
              show read_token (',' :: (dChars x ++ r)) = _
              rw [hdx]
              show read_token (',' :: cx :: (restx ++ r)) = _
              rw [read_token_comma cx _ hcx, ← List.cons_append, ← hdx]
            · rw [read_atom_succ]
              simp only [show quoteName "," = some "unquote" from rfl, hread]
              rfl
          · refine ⟨",@", dChars x ++ r,
              .cons (.symbol "unquote-splicing") (.cons w2 .nil), ?_,
              by decide, by decide, hpyall, Or.inr ⟨by decide, ?_⟩⟩
            · rw [dChars_of_display hdisp]
              show read_token (',' :: '@' :: (dChars x ++ r)) = _
              exact read_token_comma_at _
            · rw [read_atom_succ]
              simp only [show quoteName ",@" = some "unquote-splicing"
                from rfl, hread]
              rfl
      · rw [if_neg hq] at hwf
        simp only [Bool.and_eq_true] at hwf
        have hqf : quote_p (.cons h t) = false := by simpa using hq
        have hdisp := dChars_cons_shape hqf hwf.1 hwf.2
        have hsz : vsize (Value.cons h t) = 1 + vsize h + vsize t := by
          simp [vsize]
        have hszh := vsize_pos h
        have hszt := vsize_pos t
        obtain ⟨g, rfl⟩ : ∃ g, f = g + 1 := ⟨f - 1, by omega⟩
        have helh : ReadElemOK g h (spineChars t ++ r) :=
          (ih (vsize h) (by omega)).1 h le_rfl hwf.1 g (by omega) _
            (spineChars_headDelim t r)
        obtain ⟨t2, hlt, hpyt⟩ :=
          (ih (vsize t) (by omega)).2 t le_rfl hwf.2 g (by omega) r hr
        obtain ⟨tok2, s2, w, htok2, hne1, hne2, hpyh, hbr⟩ := helh
        refine ⟨"(", (dChars h ++ spineChars t) ++ r, .cons w t2, ?_,
          by decide, by decide, ?_, Or.inl ⟨rfl, ?_⟩⟩
        · rw [dChars_of_display hdisp]
          show read_token ('(' :: ((dChars h ++ spineChars t) ++ r)) = _
          exact read_token_open _
        · rw [pyEq_cons]
          simp [hpyh, hpyt]
        · rw [read_list_succ]
          rw [show (dChars h ++ spineChars t) ++ r =
            dChars h ++ (spineChars t ++ r) by simp]
          rcases hbr with ⟨htokp, hlist⟩ | ⟨htokn, hatom⟩
          · simp only [htok2, if_neg hne1, if_pos htokp, hlist, hlt]
          · simp only [htok2, if_neg hne1, if_neg htokn, hatom, hlt]
  refine ⟨PE, ?_⟩
  intro t ht hst f hf r hr
  have dotted : ∀ w : Value, vsize w ≤ n → WFValue w = true →
      spineChars w = ' ' :: '.' :: ' ' :: (dChars w ++ [')']) →
      ∀ f : Nat, 2 * vsize w + 6 ≤ f → ∀ r : List Char,
        headDelim r = true →
        ∃ wr, read_list_tail f (spineChars w ++ r) = some (.ok (wr, r)) ∧
          pyEq wr w = true := by
    intro w hwn hww hspine f hf r hr
    obtain ⟨g2, rfl⟩ : ∃ g2, f = g2 + 2 := ⟨f - 2, by omega⟩
    obtain ⟨g3, rfl⟩ : ∃ g3, g2 = g3 + 1 := ⟨g2 - 1, by omega⟩
    have helw : ReadElemOK (g3 + 1) w (')' :: r) :=
      PE w hwn hww (g3 + 1) (by omega) (')' :: r) rfl
    obtain ⟨tokw, sw, w2, htokw, hwne1, hwne2, hpyw, hwbr⟩ := helw
    refine ⟨w2, ?_, hpyw⟩
    rw [hspine]
    have hstream : (' ' :: '.' :: ' ' :: (dChars w ++ [')'])) ++ r =
        ' ' :: '.' :: ' ' :: (dChars w ++ (')' :: r)) := by
      simp
    rw [hstream, read_list_tail_succ, read_token_space]
    have htokdot : read_token ('.' :: ' ' :: (dChars w ++ (')' :: r))) =
        .ok (some ".", ' ' :: (dChars w ++ (')' :: r))) :=
      read_token_atom '.' [] (' ' :: (dChars w ++ (')' :: r)))
        (by decide) (by simp) (by rfl)
    simp only [htokdot, if_neg (show ("." : String) ≠ ")" by decide),
      if_neg (show ("." : String) ≠ "(" by decide), if_pos rfl]
    rw [read_cons_head_succ, read_token_space, htokw]
    rcases hwbr with ⟨htokp, hlist⟩ | ⟨htokn, hatom⟩
    · simp only [if_neg hwne1, if_pos htokp, hlist, read_cons_tail_succ,
        read_token_close]
      simp
    · simp only [if_neg hwne1, if_neg htokn, hatom, read_cons_tail_succ,
        read_token_close]
      simp
  match t with
  | .nil =>
    obtain ⟨g, rfl⟩ : ∃ g, f = g + 1 := ⟨f - 1, by omega⟩
    refine ⟨.nil, ?_, pyEq_nil_refl⟩
    show read_list_tail (g + 1) (')' :: r) = _
    rw [read_list_tail_succ]
    simp only [read_token_close]
    simp
  | .cons h t2 =>
    rw [spineWF_cons] at hst
    simp only [Bool.and_eq_true] at hst
    have hsz : vsize (Value.cons h t2) = 1 + vsize h + vsize t2 := by
      simp [vsize]
    have hszh := vsize_pos h
    have hszt := vsize_pos t2
    obtain ⟨g, rfl⟩ : ∃ g, f = g + 1 := ⟨f - 1, by omega⟩
    have helh : ReadElemOK g h (spineChars t2 ++ r) :=
      (ih (vsize h) (by omega)).1 h le_rfl hst.1 g (by omega) _
        (spineChars_headDelim t2 r)
    obtain ⟨t3, hlt, hpyt⟩ :=
      (ih (vsize t2) (by omega)).2 t2 le_rfl hst.2 g (by omega) r hr
    obtain ⟨tok2, s2, w, htok2, hne1, hne2, hpyh, hbr⟩ := helh
    refine ⟨.cons w t3, ?_, by rw [pyEq_cons]; simp [hpyh, hpyt]⟩
    show read_list_tail (g + 1)
      ((' ' :: (dChars h ++ spineChars t2)) ++ r) = _
    rw [show (' ' :: (dChars h ++ spineChars t2)) ++ r =
      ' ' :: (dChars h ++ (spineChars t2 ++ r)) by simp]
    rw [read_list_tail_succ, read_token_space]
    rcases hbr with ⟨htokp, hlist⟩ | ⟨htokn, hatom⟩
    · simp only [htok2, if_neg hne1, if_pos htokp, hlist, hlt]
    · simp only [htok2, if_neg hne1, if_neg htokn, if_neg hne2, hatom, hlt]
  | .boolean b =>
    exact dotted _ ht (by rw [spineWF.eq_def] at hst; exact hst) rfl f hf r hr
  | .integer k =>
    exact dotted _ ht (by rw [spineWF.eq_def] at hst; exact hst) rfl f hf r hr
  | .decimal d =>
    exact dotted _ ht (by rw [spineWF.eq_def] at hst; exact hst) rfl f hf r hr
  | .string s =>
    exact dotted _ ht (by rw [spineWF.eq_def] at hst; exact hst) rfl f hf r hr
  | .symbol s =>
    exact dotted _ ht (by rw [spineWF.eq_def] at hst; exact hst) rfl f hf r hr
  | .procedure p => simp [spineWF.eq_def, WFValue.eq_def] at hst
  | .builtin name => simp [spineWF.eq_def, WFValue.eq_def] at hst
  | .vector l => simp [spineWF.eq_def, WFValue.eq_def] at hst
  | .pfloat => simp [spineWF.eq_def, WFValue.eq_def] at hst

/-! ## C3: the reader/printer round trip -/

/-- C3 counterexample: the reader-constructible value `(quote)` — the
one-element list holding only the symbol `quote` — refutes the claim:
`display` does not produce text the reader maps back to an equal value,
it raises host `ValueError` (`display_quote` destructures the list as
exactly two elements), so `read(display(v))` never happens. -/
theorem c3_counterexample :
    read_display 1 (.cons (.symbol "quote") .nil) =
      some (.error .valueError) := by
  unfold read_display
  rw [display_match_cons, if_pos (by decide), display_quote.eq_def]
  rfl

/-- C3 (amended): for every reader-constructible value `v` that is
well formed — every quote-family pair in it is a proper two-element
list, no `unquote` argument is a symbol beginning with `@`, and the bare
symbol `.` does not occur — reading the text produced by `display v`
(with enough reader fuel) consumes the whole text and yields a value
`==`-equal to `v` (equal up to the host's numeric equality: a decimal
with exponent 0 reads back as the equal integer). -/
theorem c3_round_trip (v : Value) (h : WFValue v = true) (f : Nat)
    (hf : 2 * vsize v + 5 ≤ f) :
    ∃ w, read_display f v = some (.ok (.val w, [])) ∧ pyEq w v = true := by
  obtain ⟨g, rfl⟩ : ∃ g, f = g + 1 := ⟨f - 1, by omega⟩
  have hel : ReadElemOK g v [] :=
    (read_ok_aux (vsize v)).1 v le_rfl h g (by omega) [] rfl
  obtain ⟨w, hread, hpy⟩ := read_of_elem hel
  rw [List.append_nil] at hread
  refine ⟨w, ?_, hpy⟩
  unfold read_display
  rw [display_wf h]
  exact hread

/-- C3 witness: the round trip at the concrete list `(1 a)`, with fuel
15. -/
theorem c3_witness :
    WFValue (.cons (.integer 1) (.cons (.symbol "a") .nil)) = true ∧
    2 * vsize (.cons (.integer 1) (.cons (.symbol "a") .nil)) + 5 ≤ 15 ∧
    ∃ w, read_display 15 (.cons (.integer 1) (.cons (.symbol "a") .nil)) =
      some (.ok (.val w, [])) ∧
      pyEq w (.cons (.integer 1) (.cons (.symbol "a") .nil)) = true := by
  have hwf : WFValue (.cons (.integer 1) (.cons (.symbol "a") .nil)) =
      true := by
    rw [WFValue_cons, if_neg (by decide), spineWF_cons]
    rw [show WFValue (.integer 1) = true from by rw [WFValue.eq_def]]
    rw [show WFValue (.symbol "a") = symbolOK "a" from by
      rw [WFValue.eq_def]]
    rw [show spineWF Value.nil = true from by rw [spineWF.eq_def]]
    decide
  exact ⟨hwf, by decide,
    c3_round_trip (.cons (.integer 1) (.cons (.symbol "a") .nil)) hwf 15
      (by decide)⟩

end Actinide
